import Mathlib

/-!
The chunk scheduler and the palindrome scanner of pi-pal-processor, and the
packed-digit codec and digit stream reader that feed them.

A shallow embedding of `cmd/pi-processor/main.go`; the codec, the block catalog
and the reader of `pkg/unpack`, of which only the test is among the sources,
are modelled from the specification, with the test vectors of
`pkg/unpack/reader_test.go`.

* A Go `string` is the list of its bytes (`GoString`); `s[k]` and `s[lo:hi]`
  are the checked operations `index` and `slice`, which give `none` where Go
  panics.
* `for i := range s` visits the first byte of every UTF-8 sequence of `s`
  (`rangeIndices`); on a buffer of single-byte characters these are all the
  indices `0 .. len(s)-1`.
* Go `int`/`int64` values are integers without wrap-around: every value the
  scanner computes is bounded by `2 * len(s)`, and the loop counter of `main`
  by `TotalDigits + CHUNK_SIZE`, where `TotalDigits` is a constant of the
  generated index (10^14 for the published data), far below `2^63`.
* A loop that the source writes as `for cond { ... }` is a function with a
  fuel argument; the theorems show that the fuel handed in is enough.
-/

namespace PiPal

/-! ## Strings -/

/-- A Go string, as the sequence of its bytes. -/
abbrev GoString := List Nat

/-- The bytes of a text of single-byte (ASCII) characters. -/
def asciiBytes (t : String) : GoString := t.toList.map Char.toNat

/-- Go `s[k]`: the byte at index `k`, `none` for the run-time panic
"index out of range". -/
def index (s : GoString) (k : Int) : Option Nat :=
  if 0 ≤ k ∧ k < (s.length : Int) then s.get? k.toNat else none

/-- Plain substring of bytes `lo .. hi-1`. -/
def substr (s : GoString) (lo hi : Nat) : GoString := (s.drop lo).take (hi - lo)

/-- Go `s[lo:hi]`: `none` for the run-time panic "slice bounds out of range". -/
def slice (s : GoString) (lo hi : Int) : Option GoString :=
  if 0 ≤ lo ∧ lo ≤ hi ∧ hi ≤ (s.length : Int) then some (substr s lo.toNat hi.toNat) else none

/-- Accepted range of the second byte and the length of the UTF-8 sequence that
the lead byte `b0` announces; `none` for an ASCII byte or an invalid lead byte
(package `unicode/utf8`, table `first` and `acceptRanges`). -/
def leadInfo (b0 : Nat) : Option (Nat × Nat × Nat) :=
  if 0xC2 ≤ b0 ∧ b0 ≤ 0xDF then some (2, 0x80, 0xBF)
  else if b0 = 0xE0 then some (3, 0xA0, 0xBF)
  else if 0xE1 ≤ b0 ∧ b0 ≤ 0xEC then some (3, 0x80, 0xBF)
  else if b0 = 0xED then some (3, 0x80, 0x9F)
  else if 0xEE ≤ b0 ∧ b0 ≤ 0xEF then some (3, 0x80, 0xBF)
  else if b0 = 0xF0 then some (4, 0x90, 0xBF)
  else if 0xF1 ≤ b0 ∧ b0 ≤ 0xF3 then some (4, 0x80, 0xBF)
  else if b0 = 0xF4 then some (4, 0x80, 0x8F)
  else none

/-- Continuation byte `10xxxxxx`. -/
def isCont (b : Nat) : Bool := decide (0x80 ≤ b ∧ b ≤ 0xBF)

/-- Number of bytes the range loop advances over at the head of `s`: the width
of a valid UTF-8 sequence, and 1 for an ASCII byte or an invalid sequence. -/
def runeWidth : GoString → Nat
  | [] => 1
  | b0 :: rest =>
    match leadInfo b0 with
    | none => 1
    | some (sz, lo, hi) =>
      match rest with
      | [] => 1
      | b1 :: rest2 =>
        if ¬ (lo ≤ b1 ∧ b1 ≤ hi) then 1
        else if sz ≤ 2 then 2
        else
          match rest2 with
          | [] => 1
          | b2 :: rest3 =>
            if ¬ isCont b2 then 1
            else if sz ≤ 3 then 3
            else
              match rest3 with
              | [] => 1
              | b3 :: _ => if isCont b3 then 4 else 1

/-- Indices visited by `for i := range s` in the part of the string that starts
at byte `pos`, `skip` being the number of bytes still to pass over. -/
def rangeFrom : GoString → Nat → Nat → List Nat
  | [], _, _ => []
  | b :: rest, pos, skip =>
    if skip = 0 then pos :: rangeFrom rest (pos + 1) (runeWidth (b :: rest) - 1)
    else rangeFrom rest (pos + 1) (skip - 1)

/-- Indices visited by `for i := range s`. -/
def rangeIndices (s : GoString) : List Nat := rangeFrom s 0 0

/-! ## Integer formatting -/

/-- Base-10 digits of a natural number, as bytes. -/
def natDigits (n : Nat) : GoString := (Nat.toDigits 10 n).map Char.toNat

/-- Go `strconv.Itoa` / `strconv.FormatInt(_, 10)` / the verb `%d`. -/
def Itoa (i : Int) : GoString :=
  if i < 0 then 45 :: natDigits (-i).toNat else natDigits i.toNat

/-- Go `toString`: the dynamic type of the boxed `int` is never `int64`, so
the type assertion fails and the `else` branch (`strconv.Itoa`) is taken. -/
def toString (i : Int) : GoString :=
  let ok := false
  if ok then Itoa i else Itoa i

/-! ## The scanner -/

/-- Go `task`, without the fields that hold the cancel function and the
output file. `offset` is an `int` in the source; `main` always stores 1 and the
scanner is specified for `ps >= 0`. -/
structure task where
  start : Int
  n : Int
  unp : GoString
  offset : Nat
  id : Int
deriving DecidableEq

/-- Arguments of one call `fmt.Fprintf(b.out, "%d, %s, %s, %d \n", ...)`. -/
structure Emit where
  start : Int
  index : GoString
  pal : GoString
  len : Nat
deriving DecidableEq

/-- Condition of the inner loop,
`i-pLen >= 0 && i+pLen < len(s) && s[i-pLen] == s[i+pLen]`, evaluated left to
right. -/
def loopCond (s : GoString) (i pLen : Nat) : Option Bool :=
  if (i : Int) - pLen ≥ 0 ∧ (i : Int) + pLen < (s.length : Int) then
    match index s ((i : Int) - pLen), index s ((i : Int) + pLen) with
    | some a, some b => some (a == b)
    | _, _ => none
  else some false

/-- Inner loop `for cond { pLen++ }`: the value of `pLen` on exit; `none` on
a panic or when the fuel is used up. -/
def expand (s : GoString) (i : Nat) : Nat → Nat → Option Nat
  | 0, _ => none
  | fuel + 1, pLen =>
    match loopCond s i pLen with
    | none => none
    | some true => expand s i fuel (pLen + 1)
    | some false => some pLen

/-- Body of `FindCandidates` run over the remaining indices of the range
loop: the calls of `Fprintf`, in order; `none` on a panic. -/
def scanFrom (b : task) : List Nat → Option (List Emit)
  | [] => some []
  | i :: rest =>
    if (i : Int) ≥ ((b.unp.length : Int) - 1) - b.offset then some []
    else if (i : Int) - b.offset < 0 then scanFrom b rest
    else
      match expand b.unp i (b.unp.length + 1) b.offset with
      | none => none
      | some pLen =>
        if (i : Int) - pLen > 0 ∧ pLen > 8 then
          match slice b.unp ((i : Int) - pLen + 1) ((i : Int) + pLen) with
          | none => none
          | some pal =>
            match scanFrom b rest with
            | none => none
            | some out => some (⟨b.start, toString i, pal, pal.length⟩ :: out)
        else scanFrom b rest

/-- Go `FindCandidates`: the records written to `b.out`. -/
def FindCandidates (b : task) : Option (List Emit) := scanFrom b (rangeIndices b.unp)

/-- One output line, `"%d, %s, %s, %d \n"`. -/
def formatLine (e : Emit) : GoString :=
  Itoa e.start ++ asciiBytes ", " ++ e.index ++ asciiBytes ", " ++ e.pal ++ asciiBytes ", "
    ++ Itoa e.len ++ asciiBytes " \n"

/-- Bytes that `FindCandidates` writes to `b.out`. -/
def output (b : task) : Option GoString :=
  (FindCandidates b).map (fun es => (es.map formatLine).flatten)

/-! ## The chunk scheduler (loop of `main`) -/

/-- Go constant `CHUNK_SIZE`. -/
def CHUNK_SIZE : Int := 100000000

/-- Go constant `WORKERS`. -/
def WORKERS : Nat := 150

/-- The task that the body of the loop of `main` builds for the loop counter
`i`; `C` stands for `CHUNK_SIZE`. The digit buffer `unp` is filled in later, by
`process`. -/
def mkTask (C i : Int) : task :=
  let s := if i = 0 then i else i - 1000
  { start := s, n := C, unp := [], offset := 1, id := i }

/-- Loop `for i := *start; i < TotalDigits(); i += CHUNK_SIZE` of `main`: the
tasks sent to the channel, in order. `cancelled k` says whether `ctx.Err()` is
non-nil right after the `k`-th send (the loop then breaks). `none` when the
fuel is used up. -/
def scheduleLoop (C total : Int) (cancelled : Nat → Bool) : Nat → Nat → Int → Option (List task)
  | 0, _, _ => none
  | fuel + 1, k, i =>
    if i < total then
      if cancelled k then some [mkTask C i]
      else (scheduleLoop C total cancelled fuel (k + 1) (i + C)).map (fun ts => mkTask C i :: ts)
    else some []

/-- The tasks that `main` sends for the start offset `start`, chunk size `C`
and `totalDigits` digits. -/
def schedule (C start total : Int) (cancelled : Nat → Bool) : Option (List task) :=
  scheduleLoop C total cancelled ((total - start).toNat + 1) 0 start

/-- Range of digits `[start, start + C)` that `process` reads for a task. -/
def chunkEnd (C : Int) (t : task) : Int := t.start + C

/-! ## Fetching a chunk: `process` and the retry of `worker` -/

/-- A Go `error` value. -/
abbrev GoError := String

/-- What the collaborators of `process` answer during one call: the error of
`urd.Seek(task.start, io.SeekStart)`, the outcome of
`io.CopyN(&buf, urd, CHUNK_SIZE)` (the digits read, or an error), and the error
of `os.OpenFile`. -/
structure Attempt where
  seekErr : Option GoError
  copy : Except GoError GoString
  openErr : Option GoError

/-- How one call of `process` ends: it returns (`nil` is `none`) after writing
the given records, or it terminates the program through `os.Exit`, or the
scanner panics. -/
inductive Result where
  | returned (err : Option GoError) (written : List Emit)
  | exited (status : Nat)
  | panicked
deriving DecidableEq

/-- Go `process`. -/
def process (t : task) (a : Attempt) : Result :=
  match a.seekErr with
  | some err => Result.returned (some err) []
  | none =>
    match a.copy with
    | Except.error _ => Result.exited 1
    | Except.ok digits =>
      match a.openErr with
      | some _ => Result.exited 1
      | none =>
        match FindCandidates { t with unp := digits } with
        | none => Result.panicked
        | some out => Result.returned none out

/-- How the work of `worker` on one task ends, with the number of calls of
`process` made: the task is done, the program was terminated by `os.Exit`, the
retries are used up (the worker logs the error and calls `task.cancel()`), or
the scanner panicked. -/
inductive TaskEnd where
  | done (written : List Emit) (calls : Nat)
  | exited (status : Nat) (calls : Nat)
  | failed (err : GoError) (calls : Nat)
  | panicked
deriving DecidableEq

/-- The call `retry.Do(ctx, b, func ...)` of `worker` for one task: every error
that `process` returns is wrapped in `retry.RetryableError`, and `process` is
called again while the backoff `b` has retries left. `env n` is what the
collaborators answer during call number `n`; the first argument is the number
of retries left, the second the number of calls made so far. -/
def retryDo (t : task) (env : Nat → Attempt) : Nat → Nat → TaskEnd
  | 0, n =>
    match process t (env n) with
    | Result.exited st => TaskEnd.exited st (n + 1)
    | Result.panicked => TaskEnd.panicked
    | Result.returned none out => TaskEnd.done out (n + 1)
    | Result.returned (some err) _ => TaskEnd.failed err (n + 1)
  | left + 1, n =>
    match process t (env n) with
    | Result.exited st => TaskEnd.exited st (n + 1)
    | Result.panicked => TaskEnd.panicked
    | Result.returned none out => TaskEnd.done out (n + 1)
    | Result.returned (some _) _ => retryDo t env left (n + 1)

/-- Retry bound of `worker`: `retry.WithMaxRetries(3, ...)`. -/
def MAX_RETRIES : Nat := 3

/-- The work of `worker` on one task, with a fresh backoff. -/
def runTask (t : task) (env : Nat → Attempt) : TaskEnd := retryDo t env MAX_RETRIES 0

/-! ## Notions of the specification -/

/-- The expansion around the center `i` stops at the radius `r`:
`i-r < 0`, or `i+r >= len(s)`, or `s[i-r] != s[i+r]`. -/
def stopsAt (s : GoString) (i r : Nat) : Prop :=
  (i : Int) - r < 0 ∨ (i : Int) + r ≥ (s.length : Int) ∨ s[i - r]? ≠ s[i + r]?

instance (s : GoString) (i r : Nat) : Decidable (stopsAt s i r) := by
  unfold stopsAt; infer_instance

/-- The final radius of the center `i`: `r` is the least value `>= ps` at
which the expansion stops. -/
def IsFinalRadius (s : GoString) (ps i r : Nat) : Prop :=
  ps ≤ r ∧ stopsAt s i r ∧ ∀ q, ps ≤ q → q < r → ¬ stopsAt s i q

instance (s : GoString) (ps i r : Nat) : Decidable (IsFinalRadius s ps i r) := by
  unfold IsFinalRadius; infer_instance

/-- The center `i` qualifies with the final radius `r`: it lies in
`[ps, len(s)-1-ps)`, and `r > 8` and `i - r > 0`. -/
def Qualifies (s : GoString) (ps i r : Nat) : Prop :=
  ps ≤ i ∧ (i : Int) < (s.length : Int) - 1 - ps ∧ IsFinalRadius s ps i r ∧ r > 8 ∧ (i : Int) - r > 0

instance (s : GoString) (ps i r : Nat) : Decidable (Qualifies s ps i r) := by
  unfold Qualifies; infer_instance

/-- The record of the center `i` with the final radius `r`: the text
`s[i-r+1 : i+r]` and the length `2r-1`. -/
def recordOf (b : task) (i r : Nat) : Emit :=
  ⟨b.start, natDigits i, substr b.unp (i - r + 1) (i + r), 2 * r - 1⟩

/-- The radius at which the inner loop of the scanner leaves the center `i`
(0 if it did not return). -/
def radius (s : GoString) (ps i : Nat) : Nat := (expand s i (s.length + 1) ps).getD 0

/-- The centers that the loop body reaches before the `break`. -/
def beforeBreak (b : task) (idxs : List Nat) : List Nat :=
  idxs.takeWhile (fun i => decide ((i : Int) < (b.unp.length : Int) - 1 - b.offset))

/-! ## Sample inputs -/

/-- A first chunk (start 0) whose buffer holds the 17-character palindrome
`12345678987654321` around the center 10, scanned with `ps = 0`. -/
def sample17 : task := ⟨0, 0, asciiBytes "0012345678987654321", 0, 0⟩

/-- The short buffer `12321`, scanned with `ps = 0`. -/
def sampleShort : task := ⟨0, 0, asciiBytes "12321", 0, 0⟩

/-- A 21-digit buffer that holds the 19-character palindrome
`1234567890987654321` around the center 11, scanned with `ps = 0`. -/
def sample19 : task := ⟨0, 0, asciiBytes "001234567890987654321", 0, 0⟩

/-- A 19-digit buffer scanned with `ps = 2`: around the center 10 the
characters at the distances 2 to 8 mirror, those at the distance 1 do not. -/
def sampleOffset2 : task := ⟨0, 0, asciiBytes "0012345678097654321", 2, 0⟩

/-- The buffer of `sample17` as the chunk that starts at the digit 99999000
(the second chunk of a run from 0), scanned with `ps = 1` as `main` does. -/
def sampleSecondChunk : task := ⟨99999000, 100000000, asciiBytes "0012345678987654321", 1, 100000000⟩

/-! ## The packed-digit codec (WordCodec)

The packages `ycd`, `resultset` and `unpack` are not among the sources; only
the test `pkg/unpack/reader_test.go` is. The definitions of this part and of
the next follow the specification. -/

/-- A word format: the radix, the number of digits that a word holds, the
number of bytes of a word and its byte order. -/
structure WordFormat where
  radix : Nat
  digitsPerWord : Nat
  wordBytes : Nat
  bigEndian : Bool
deriving DecidableEq

/-- Modelled from the spec: `digitsPerWord` of package `ycd` (not among the
sources): "for decimal, digitsPerWord(10) = 9; for hexadecimal,
digitsPerWord(16) = 8". -/
def digitsPerWord (radix : Nat) : Nat :=
  if radix = 10 then 9 else if radix = 16 then 8 else 0

/-- Modelled from the spec: the Word format of the data model (package `ycd`,
not among the sources): "word byte width is constant per radix (4 bytes,
big-endian unsigned)". -/
def specFormat (radix : Nat) : WordFormat := ⟨radix, digitsPerWord radix, 4, true⟩

/-- The word format that the test vectors of `reader_test.go` are packed in:
8-byte little-endian words of 19 decimal or 16 hexadecimal digits. -/
def testFormat (radix : Nat) : WordFormat :=
  ⟨radix, if radix = 10 then 19 else if radix = 16 then 16 else 0, 8, false⟩

/-- Value of a big-endian unsigned word. -/
def beValue (bytes : List Nat) : Nat := bytes.foldl (fun acc b => acc * 256 + b) 0

/-- Value of a little-endian unsigned word. -/
def leValue : List Nat → Nat
  | [] => 0
  | b :: rest => b + 256 * leValue rest

/-- Value of the word stored in `bytes`. -/
def wordValue (fmt : WordFormat) (bytes : List Nat) : Nat :=
  if fmt.bigEndian then beValue bytes else leValue bytes

/-- Character of the digit `d` in the standard numeral alphabet `0`-`9`,
`a`-`f`. -/
def digitChar (d : Nat) : Nat := if d < 10 then 48 + d else 87 + d

/-- Digit that the character `c` of the alphabet `0`-`9`, `a`-`f` stands for. -/
def digitValue (c : Nat) : Option Nat :=
  if 48 ≤ c ∧ c ≤ 57 then some (c - 48)
  else if 97 ≤ c ∧ c ≤ 102 then some (c - 87)
  else none

/-- The digits of `w` in base `radix` in a field of `width` digits, most
significant digit first: for `w < radix ^ width` the numeral of `w` after
leading zeros. A value that needs more digits does not fit the field; the
spec gives no digit string for it, and the field then holds its `width` lowest
digits. -/
def fixedDigits (radix : Nat) : Nat → Nat → List Nat
  | 0, _ => []
  | width + 1, w => fixedDigits radix width (w / radix) ++ [w % radix]

/-- Modelled from the spec: `decode` of the WordCodec (package `ycd`, not among
the sources): the digit string of a word, "of length digitsPerWord(radix),
using the standard numeral alphabet, left-padded with 0 to the fixed width",
most significant digit first. -/
def decodeWord (fmt : WordFormat) (w : Nat) : GoString :=
  (fixedDigits fmt.radix fmt.digitsPerWord w).map digitChar

/-- Modelled from the spec: `decode(word, radix)` in the Word format of the
spec. -/
def decode (w radix : Nat) : GoString := decodeWord (specFormat radix) w

/-- Reading of a digit string as an integer in base `radix`; `none` when a
character is not a digit of the radix. -/
def parseBase (radix : Nat) (s : GoString) : Option Nat :=
  s.foldl (fun acc c =>
    match acc, digitValue c with
    | some a, some d => if d < radix then some (a * radix + d) else none
    | _, _ => none) (some 0)

/-- The character `c` belongs to the alphabet of the radix. -/
def inAlphabet (radix c : Nat) : Prop := ∃ d, d < radix ∧ digitValue c = some d

/-- Modelled from the spec: the word with index `wi` of a raw byte stream,
decoded; `none` when the stream is too short (an I/O error of the raw
reader). -/
def fetchWord (fmt : WordFormat) (raw : List Nat) (wi : Nat) : Option GoString :=
  if (wi + 1) * fmt.wordBytes ≤ raw.length then
    some (decodeWord fmt (wordValue fmt ((raw.drop (wi * fmt.wordBytes)).take fmt.wordBytes)))
  else none

/-- The digits of the first `n` words of a raw byte stream. -/
def decodeWords (fmt : WordFormat) : Nat → List Nat → GoString
  | 0, _ => []
  | n + 1, raw =>
    decodeWord fmt (wordValue fmt (raw.take fmt.wordBytes))
      ++ decodeWords fmt n (raw.drop fmt.wordBytes)

/-- The digits of all the whole words of a raw byte stream. -/
def decodeAll (fmt : WordFormat) (raw : List Nat) : GoString :=
  decodeWords fmt (raw.length / fmt.wordBytes) raw

/-! ## Test data of `pkg/unpack/reader_test.go` -/

/-- Go `testDecBytes`: the packed decimal test block. -/
def testDecBytes : List Nat := [
  0x60, 0xe2, 0x3e, 0xb8, 0xae, 0x61, 0xa6, 0x13, 0x23, 0x66, 0x57, 0xf6, 0x84, 0x66, 0xef, 0x56,
  0x2e, 0x09, 0x17, 0x1e, 0xbf, 0xd2, 0x7e, 0x63, 0x8e, 0x22, 0xa2, 0x31, 0xfe, 0xa8, 0x16, 0x83,
  0x43, 0xe1, 0x29, 0xbc, 0x73, 0xf4, 0x7c, 0x0c, 0x82, 0xbe, 0x7f, 0xdf, 0x50, 0x84, 0x16, 0x62,
  0x91, 0x64, 0x23, 0x58, 0x12, 0x4b, 0x8e, 0x2a, 0x30, 0x10, 0x80, 0x6b, 0xda, 0x93, 0x1e, 0x72,
  0x72, 0xd3, 0x19, 0xe6, 0x1c, 0xfb, 0x81, 0x0f, 0xf1, 0x23, 0xfd, 0xa2, 0x74, 0x63, 0x51, 0x48,
  0x49, 0x5c, 0xa1, 0xe4, 0x22, 0x31, 0x3b, 0x4c, 0x00, 0x1e, 0x7e, 0x29, 0x73, 0x70, 0xa1, 0x4e,
  0x53, 0xfe, 0x78, 0x05, 0x68, 0xc6, 0x71, 0x20, 0xb2, 0x0c, 0x34, 0x3f, 0xe4, 0x2f, 0xb1, 0x0c,
  0x91, 0x8f, 0x97, 0x06, 0x97, 0x7a, 0x7e, 0x77, 0xdd, 0xec, 0xce, 0xba, 0xca, 0x37, 0x46, 0x54,
  0xd0, 0x06, 0x4a, 0x0f, 0xbf, 0xf4, 0xbe, 0x78, 0xcb, 0xfd, 0xe1, 0xb8, 0x8e, 0x65, 0x1b, 0x15,
  0xf0, 0xd6, 0x18, 0x3c, 0x06, 0xd9, 0x46, 0x63, 0xbc, 0x62, 0xea, 0x0f, 0xc0, 0x69, 0xb9, 0x0f,
  0xb9, 0xd9, 0x69, 0xbb, 0x51, 0x7a, 0x35, 0x13, 0x0f, 0x94, 0x83, 0xfb, 0xed, 0x48, 0x19, 0x3c,
  0x6d, 0x2d, 0x8c, 0xab, 0x32, 0x22, 0xae, 0x49, 0xde, 0x1f, 0xfe, 0xe3, 0x9a, 0x63, 0xe2, 0x18,
  0x09, 0x5b, 0x6d, 0x76, 0x13, 0xfd, 0xba, 0x34, 0xbd, 0x88, 0x3c, 0x1e, 0xec, 0xa4, 0x2b, 0x49,
  0x08, 0x8c, 0x37, 0xbd, 0x41, 0xb3, 0x0c, 0x1b, 0x17, 0x14, 0x37, 0xb1, 0x13, 0xa6, 0x20, 0x5b,
  0x02, 0x57, 0x2c, 0x30, 0x65, 0x9f, 0x26, 0x84, 0x18, 0xc1, 0x8a, 0x7b, 0xab, 0xb4, 0x18, 0x0d,
  0x18, 0x78, 0xe9, 0x9e, 0x07, 0xbb, 0xaf, 0x28, 0xec, 0x29, 0x7d, 0x41, 0x8b, 0x00, 0xe9, 0x5d,
  0x2b, 0xd2, 0xae, 0xf1, 0x59, 0x13, 0x29, 0x63, 0x33, 0x59, 0x87, 0xb8, 0xef, 0x33, 0x91, 0x2f,
  0xff, 0x40, 0xb4, 0xa5, 0xd8, 0x7b, 0x3f, 0x6d, 0xaa, 0x5f, 0x91, 0xf7, 0x1c, 0x54, 0x9a, 0x2f,
  0xdc, 0x9c, 0x59, 0x0a, 0xcc, 0x6d, 0xf3, 0x6d, 0x76, 0x63, 0xd2, 0x2e, 0xd3, 0xd5, 0xb1, 0x1b,
  0x4e, 0x97, 0x13, 0xeb, 0xf0, 0x21, 0xfd, 0x37, 0x71, 0x90, 0x61, 0xa4, 0x39, 0x6f, 0x0a, 0x6b,
  0xc3, 0x86, 0x25, 0x63, 0x5c, 0x91, 0x63, 0x45, 0x3e, 0x6c, 0xb6, 0x73, 0x65, 0xec, 0xb4, 0x0e,
  0x9b, 0x38, 0x0c, 0xd9, 0xee, 0x83, 0x93, 0x52, 0xc4, 0xd6, 0x72, 0xfd, 0x00, 0xd0, 0xaa, 0x03,
  0x02, 0xb1, 0x84, 0x67, 0x0c, 0xd8, 0xe0, 0x45, 0x53, 0x58, 0x48, 0x2a, 0x7a, 0x7a, 0x6f, 0x00,
  0x06, 0x29, 0x28, 0x16, 0xb2, 0xfc, 0x15, 0x2e, 0xfc, 0x40, 0x8d, 0x7a, 0x28, 0xc0, 0xf1, 0x7e,
  0x5e, 0xe8, 0xce, 0x5c, 0x15, 0xa4, 0xd7, 0x68, 0x82, 0x0e, 0x5b, 0x47, 0x59, 0xf1, 0x49, 0x72,
  0xb6, 0xbe, 0xb3, 0x12, 0x8d, 0x29, 0xc8, 0x19, 0xd7, 0x7c, 0x26, 0x49, 0x0e, 0x34, 0x12, 0x55,
  0x75, 0x11, 0xd8, 0xb5, 0x88, 0x54, 0xca, 0x0c, 0x11, 0xd9, 0x34, 0x11, 0xe8, 0x52, 0xef, 0x63,
  0xff, 0xe0, 0x5d, 0x7f, 0x68, 0xd9, 0xea, 0x81, 0x03, 0xcc, 0x98, 0x93, 0x93, 0x80, 0xb5, 0x02,
  0xb1, 0x80, 0x3b, 0x09, 0x2a, 0x07, 0x20, 0x50, 0xd3, 0x16, 0x4e, 0x42, 0xf6, 0x9b, 0x2a, 0x64,
  0x9b, 0x87, 0x7e, 0x46, 0x8a, 0xa2, 0xe2, 0x67, 0x6f, 0x44, 0xf7, 0x87, 0xf9, 0x17, 0x83, 0x0b,
  0x86, 0x4a, 0xe6, 0x20, 0xea, 0x4a, 0x62, 0x7b, 0x1c, 0x21, 0x5b, 0x0f, 0xae, 0x14, 0x1f, 0x5a,
  0xf8, 0x65, 0x8f, 0x81, 0x18, 0xd5, 0xe1, 0x6a, 0x54, 0x47, 0xbd, 0x15, 0x1e, 0xd2, 0xc8, 0x01,
  0x07, 0x5b, 0x40, 0xd4, 0x8b, 0x7b, 0x69, 0x53, 0xe8, 0xcc, 0x81, 0xee, 0x3d, 0x15, 0x07, 0x56,
  0x00, 0x49, 0x21, 0x42, 0x85, 0xe9, 0x70, 0x23, 0x09, 0xfc, 0x72, 0x3f, 0xe3, 0xb2, 0xf7, 0x41,
  0xe4, 0xb6, 0x75, 0x6f, 0x47, 0x4e, 0xdd, 0x7d, 0x59, 0x72, 0xd3, 0x35, 0xfc, 0xbd, 0x45, 0x89,
  0x57, 0x23, 0x5f, 0xf7, 0x18, 0x75, 0xa0, 0x5b, 0x38, 0xb2, 0xfc, 0xed, 0xad, 0xe8, 0x64, 0x11,
  0x68, 0x60, 0x93, 0xb8, 0x4f, 0xd7, 0x58, 0x22, 0x1b, 0xed, 0x7c, 0xd0, 0xe1, 0x37, 0xc2, 0x64,
  0x29, 0x9c, 0x07, 0xc6, 0x9d, 0xc8, 0x5b, 0x42, 0x8d, 0x36, 0xd2, 0xde, 0x75, 0x4a, 0x85, 0x1e,
  0xaa, 0x23, 0xab, 0x35, 0xe1, 0x7b, 0x26, 0x73, 0xea, 0xf8, 0xb2, 0x4e, 0x35, 0xb3, 0x40, 0x4c,
  0xb1, 0x8a, 0x7c, 0xde, 0x13, 0x25, 0xad, 0x80, 0x8c, 0xdc, 0x14, 0xa7, 0xe9, 0x70, 0x5f, 0x1d,
  0x09, 0xb1, 0x52, 0x8f, 0xe9, 0x25, 0x48, 0x03, 0x9a, 0xf0, 0x2c, 0xd6, 0x56, 0xf9, 0xd9, 0x73,
  0x11, 0xb8, 0xd4, 0xa4, 0xd8, 0xcc, 0xd5, 0x24, 0xf9, 0xe4, 0x82, 0xac, 0xdc, 0xa4, 0x1e, 0x69,
  0xac, 0x98, 0x37, 0x9b, 0x30, 0x9c, 0x08, 0x6f, 0x73, 0x38, 0x28, 0x4a, 0x17, 0x92, 0x44, 0x44,
  0x41, 0x2d, 0xe2, 0xbe, 0xb9, 0x80, 0xf6, 0x01, 0xe5, 0x81, 0xe7, 0x8c, 0xfc, 0xe2, 0x1e, 0x32,
  0x66, 0xdd, 0xb5, 0x4f, 0xfb, 0xea, 0x13, 0x3a, 0xf0, 0xac, 0x0a, 0xda, 0x2f, 0x46, 0x9d, 0x66,
  0xc4, 0xd5, 0xe6, 0x14, 0x75, 0xd4, 0xb2, 0x77, 0xf1, 0x88, 0x69, 0x66, 0xb0, 0xbf, 0xb1, 0x89,
  0x89, 0xe3, 0xcf, 0x95, 0xc8, 0x80, 0x13, 0x3b, 0x47, 0xdb, 0x90, 0x1e, 0xf8, 0xcd, 0xaf, 0x5a,
  0xcc, 0x44, 0x2c, 0x2a, 0xdf, 0xf7, 0x60, 0x7f, 0x1b, 0x3b, 0x22, 0x2e, 0x85, 0xdd, 0xb2, 0x6e,
  0xcb, 0xa8, 0x3c, 0xe9, 0x2e, 0x27, 0x21, 0x6d, 0x08, 0xa5, 0x16, 0x99, 0x12, 0xa8, 0xfa, 0x22,
  0x91, 0x3a, 0x55, 0x54, 0x88, 0x56, 0x4b, 0x39, 0x97, 0x10, 0xb7, 0x4e, 0x22, 0xd0, 0xf5, 0x85,
  0x86, 0x6c, 0x4a, 0x41, 0x91, 0x0c, 0x5c, 0x09, 0x3c, 0xdc, 0xb8, 0xe1, 0x46, 0xfc, 0x0a, 0x46,
  0x8e, 0xad, 0x79, 0x50, 0x48, 0x17, 0x91, 0x32, 0x77, 0x67, 0x2a, 0xa7, 0x60, 0x61, 0xe6, 0x4f,
  0xcb, 0x6a, 0x4f, 0x56, 0x2c, 0x77, 0xb8, 0x24, 0x08, 0x36, 0x28, 0x56, 0x60, 0x8b, 0xe4, 0x51,
  0x26, 0x0b, 0x2e, 0x34, 0x06, 0x22, 0x68, 0x60, 0xee, 0x68, 0xe1, 0x00, 0x84, 0x1a, 0xce, 0x50,
  0x31, 0x94, 0x2f, 0x75, 0xbb, 0x00, 0xd9, 0x63, 0x21, 0xe5, 0x7e, 0x47, 0xf5, 0x1a, 0x27, 0x7e,
  0x23, 0x24, 0x9d, 0x72, 0x6c, 0x63, 0x9f, 0x49, 0xeb, 0x22, 0xb8, 0xf7, 0x1f, 0x06, 0x00, 0x68,
  0x2e, 0x21, 0x9c, 0xe3, 0xd6, 0xa2, 0xd0, 0x7d, 0xa5, 0x3e, 0xbd, 0xeb, 0x15, 0xe2, 0x08, 0x15,
  0xf5, 0x42, 0xe7, 0xee, 0x31, 0x9d, 0xf3, 0x7a, 0x34, 0x8f, 0xd3, 0x56, 0x13, 0x67, 0xb3, 0x55,
  0x2f, 0xdb, 0xe1, 0x5d, 0xf4, 0x3e, 0xb1, 0x35, 0x63, 0x73, 0x31, 0xfc, 0xed, 0x56, 0x67, 0x80,
  0xc4, 0x62, 0x5d, 0x37, 0x4c, 0xf1, 0xa5, 0x64, 0xde, 0x56, 0xef, 0x92, 0x78, 0x01, 0x2b, 0x41,
  0xb6, 0x91, 0x75, 0xbc, 0x5d, 0x82, 0xe3, 0x56, 0xc0, 0x07, 0x2b, 0x24, 0xd4, 0x82, 0x1d, 0x75,
  0xdd, 0x77, 0x01, 0x04, 0xca, 0x60, 0x97, 0x26, 0x34, 0xf8, 0x6a, 0x8d, 0xc3, 0x99, 0x29, 0x61,
  0x7f, 0x5d, 0x9f, 0x11, 0x17, 0xee, 0x23, 0x5f, 0xf8, 0x6c, 0xd1, 0xac, 0x37, 0xbb, 0xe3, 0x1e,
  0xda, 0x55, 0xba, 0x7e, 0xb6, 0xbc, 0xf4, 0x03, 0x9c, 0x8a, 0x29, 0x4d, 0xa6, 0x55, 0xa1, 0x5d]

/-- Go `testDecExpected`: the digits that the test expects from `testDecBytes`. -/
def testDecExpected : GoString :=
  asciiBytes "1415926535897932384626433832795028841971693993751058209749445923078164062862089986280348253421170679"
    ++ asciiBytes "8214808651328230664709384460955058223172535940812848111745028410270193852110555964462294895493038196"
    ++ asciiBytes "4428810975665933446128475648233786783165271201909145648566923460348610454326648213393607260249141273"
    ++ asciiBytes "7245870066063155881748815209209628292540917153643678925903600113305305488204665213841469519415116094"
    ++ asciiBytes "3305727036575959195309218611738193261179310511854807446237996274956735188575272489122793818301194912"
    ++ asciiBytes "9833673362440656643086021394946395224737190702179860943702770539217176293176752384674818467669405132"
    ++ asciiBytes "0005681271452635608277857713427577896091736371787214684409012249534301465495853710507922796892589235"
    ++ asciiBytes "4201995611212902196086403441815981362977477130996051870721134999999837297804995105973173281609631859"
    ++ asciiBytes "5024459455346908302642522308253344685035261931188171010003137838752886587533208381420617177669147303"
    ++ asciiBytes "5982534904287554687311595628638823537875937519577818577805321712268066130019278766111959092164201989"
    ++ asciiBytes "3809525720106548586327886593615338182796823030195203530185296899577362259941389124972177528347913151"
    ++ asciiBytes "5574857242454150695950829533116861727855889075098381754637464939319255060400927701671139009848824012"
    ++ asciiBytes "8583616035637076601047101819429555961989467678374494482553797747268471040475346462080466842590694912"
    ++ asciiBytes "9331367702898915210475216205696602405803815019351125338243003558764024749647326391419927260426992279"
    ++ asciiBytes "6782354781636009341721641219924586315030286182974555706749838505494588586926995690927210797509302955"
    ++ asciiBytes "3211653449872027559602364806654991198818347977535663698074265425278625518184175746728909777727938000"
    ++ asciiBytes "8164706001614524919217321721477235014144197356854816136115735255213347574184946843852332390739414333"
    ++ asciiBytes "4547762416862518983569485562099219222184272550254256887671790494601653466804988627232791786085784383"
    ++ asciiBytes "8279679766814541009538837863609506800642251252051173929848960841284886269456042419652850222106611863"
    ++ asciiBytes "0674427862203919494504712371378696095636437191728746776465757396241389086583264599581339047802759009"
    ++ asciiBytes "9465764078951269468398352595709825822620522489407726719478268482601476990902640136394437455305068203"
    ++ asciiBytes "4962524517493996514314298091906592509372216964615157098583874105978859597729754989301617539284681382"
    ++ asciiBytes "6868386894277415599185592524595395943104997252468084598727364469584865383673622262609912460805124388"
    ++ asciiBytes "4390451244136549762780797715691435997700129616089441694868555848406353422072225828488648158456028506"
    ++ asciiBytes "01684273945226746767889525213852"

/-- Go `testHexBytes`: the packed hexadecimal test block. -/
def testHexBytes : List Nat := [
  0xd3, 0x08, 0xa3, 0x85, 0x88, 0x6a, 0x3f, 0x24, 0x44, 0x73, 0x70, 0x03, 0x2e, 0x8a, 0x19, 0x13,
  0xd0, 0x31, 0x9f, 0x29, 0x22, 0x38, 0x09, 0xa4, 0x89, 0x6c, 0x4e, 0xec, 0x98, 0xfa, 0x2e, 0x08,
  0x77, 0x13, 0xd0, 0x38, 0xe6, 0x21, 0x28, 0x45, 0x6c, 0x0c, 0xe9, 0x34, 0xcf, 0x66, 0x54, 0xbe,
  0xdd, 0x50, 0x7c, 0xc9, 0xb7, 0x29, 0xac, 0xc0, 0x17, 0x09, 0x47, 0xb5, 0xb5, 0xd5, 0x84, 0x3f,
  0x1b, 0xfb, 0x79, 0x89, 0xd9, 0xd5, 0x16, 0x92, 0xac, 0xb5, 0xdf, 0x98, 0xa6, 0x0b, 0x31, 0xd1,
  0xb7, 0xdf, 0x1a, 0xd0, 0xdb, 0x72, 0xfd, 0x2f, 0x96, 0x7e, 0x26, 0x6a, 0xed, 0xaf, 0xe1, 0xb8,
  0x99, 0x7f, 0x2c, 0xf1, 0x45, 0x90, 0x7c, 0xba, 0xf7, 0x6c, 0x91, 0xb3, 0x47, 0x99, 0xa1, 0x24,
  0x16, 0xfc, 0x8e, 0x85, 0xe2, 0xf2, 0x01, 0x08, 0x69, 0x4e, 0x57, 0x71, 0xd8, 0x20, 0x69, 0x63,
  0x7e, 0x3d, 0x93, 0xf4, 0xa3, 0xfe, 0x58, 0xa4, 0x58, 0xb6, 0x8e, 0x72, 0x8f, 0x74, 0x95, 0x0d,
  0xee, 0x4a, 0x15, 0x82, 0x58, 0xcd, 0x8b, 0x71, 0xb5, 0x59, 0x5a, 0xc2, 0x1d, 0xa4, 0x54, 0x7b,
  0x13, 0x60, 0xf2, 0x2a, 0x39, 0xd5, 0x30, 0x9c, 0xf0, 0x85, 0x60, 0x28, 0x23, 0xb0, 0xd1, 0xc5,
  0xef, 0x38, 0xdb, 0xb8, 0x18, 0x79, 0x41, 0xca, 0x0e, 0x18, 0x3a, 0x60, 0xb0, 0xdc, 0x79, 0x8e,
  0x3e, 0x8a, 0x1e, 0xb0, 0x8b, 0x0e, 0x9e, 0x6c, 0x27, 0x4b, 0x31, 0xbd, 0xc1, 0x77, 0x15, 0xd7,
  0x60, 0x5c, 0x60, 0x55, 0xda, 0x2f, 0xaf, 0x78, 0x94, 0xab, 0x55, 0xaa, 0xf3, 0x25, 0x55, 0xe6,
  0x40, 0x14, 0xe8, 0x63, 0x62, 0x98, 0x48, 0x57, 0xb6, 0x10, 0xab, 0x2a, 0x6a, 0x39, 0xca, 0x55,
  0xce, 0xe8, 0x41, 0x11, 0x34, 0x5c, 0xcc, 0xb4, 0x93, 0xe9, 0x72, 0x7c, 0xaf, 0x86, 0x54, 0xa1,
  0x2a, 0xbc, 0x6f, 0x63, 0x11, 0x14, 0xee, 0xb3, 0xf6, 0x31, 0x18, 0x74, 0x5d, 0xc5, 0xa9, 0x2b,
  0x1e, 0x93, 0x87, 0x9b, 0x16, 0x3e, 0x5c, 0xce, 0x5c, 0xcf, 0x24, 0x6c, 0x33, 0xba, 0xd6, 0xaf,
  0x77, 0x86, 0x95, 0x28, 0x81, 0x53, 0x32, 0x7a, 0xaf, 0xb9, 0x4b, 0x6b, 0x98, 0x48, 0x8f, 0x3b,
  0x93, 0x21, 0x28, 0x66, 0x1b, 0xe8, 0xbf, 0xc4, 0x91, 0xa9, 0x21, 0xfb, 0xcc, 0x09, 0xd8, 0x61,
  0x32, 0x80, 0xec, 0x5d, 0x60, 0xac, 0x7c, 0x48, 0xb1, 0x75, 0x85, 0xe9, 0x5d, 0x5d, 0x84, 0xef,
  0x88, 0x1b, 0x65, 0xeb, 0x02, 0x23, 0x26, 0xdc, 0xc5, 0xac, 0x96, 0xd3, 0x81, 0x3e, 0x89, 0x23,
  0x39, 0x42, 0xf4, 0x83, 0xf3, 0x6f, 0x6d, 0x0f, 0x04, 0x20, 0x84, 0xa4, 0x82, 0x44, 0x0b, 0x2e,
  0x5e, 0x9b, 0x1f, 0x9e, 0x4a, 0xf0, 0xc8, 0x69, 0x9a, 0x6c, 0xe9, 0xf6, 0x42, 0x68, 0xc6, 0x21,
  0xf0, 0x88, 0xd3, 0xab, 0x61, 0x9c, 0x0c, 0x67, 0x68, 0x2f, 0x54, 0xd8, 0xd2, 0xa0, 0x51, 0x6a,
  0xa3, 0x33, 0x51, 0xab, 0x28, 0xa7, 0x0f, 0x96, 0xe4, 0x3b, 0x7a, 0x13, 0x6c, 0x0b, 0xef, 0x6e,
  0x98, 0x2a, 0xfb, 0x7e, 0x50, 0xf0, 0x3b, 0xba, 0x76, 0x01, 0xaf, 0x39, 0x1d, 0x65, 0xf1, 0xa1,
  0x88, 0x0e, 0x43, 0x82, 0x3e, 0x59, 0xca, 0x66, 0xb4, 0x9f, 0x6f, 0x45, 0x19, 0x86, 0xee, 0x8c,
  0xbe, 0x5e, 0x8b, 0x3b, 0xc3, 0xa5, 0x84, 0x7d, 0x73, 0x20, 0xc1, 0x85, 0xd8, 0x75, 0x6f, 0xe0,
  0xa6, 0x6a, 0xc1, 0x56, 0x9f, 0x44, 0x1a, 0x40, 0x06, 0x77, 0x3f, 0x36, 0x62, 0xaa, 0xd3, 0x4e,
  0x3d, 0x02, 0x9b, 0x42, 0x72, 0xdf, 0xfe, 0x1b, 0x48, 0x12, 0x0a, 0xd0, 0x24, 0xd7, 0xd0, 0x37,
  0x9b, 0xc0, 0xf1, 0x49, 0xd3, 0xea, 0x0f, 0xdb, 0x7b, 0x1b, 0x99, 0x80, 0xc9, 0x72, 0x53, 0x07,
  0xf7, 0xde, 0xe8, 0xf6, 0xd8, 0x79, 0xd4, 0x25, 0x3b, 0x4c, 0x79, 0xb6, 0x1a, 0x50, 0xfe, 0xe3,
  0xba, 0x06, 0xc0, 0x04, 0xbd, 0xe0, 0x6c, 0x97, 0xc4, 0x60, 0x9f, 0x40, 0xb6, 0x4f, 0xa9, 0xc1,
  0x63, 0x24, 0x6a, 0x19, 0xc2, 0x9e, 0x5c, 0x5e, 0xb5, 0x53, 0x6c, 0x3e, 0xaf, 0x6f, 0xfb, 0x68,
  0x6f, 0xec, 0x52, 0x3b, 0xeb, 0xb2, 0x39, 0x13, 0x2c, 0x95, 0x30, 0x9b, 0x1f, 0x51, 0xfc, 0x6d,
  0x09, 0xbd, 0x5e, 0xaf, 0x44, 0x45, 0x81, 0xcc, 0xfd, 0x4a, 0x33, 0xde, 0x04, 0xd0, 0xe3, 0xbe,
  0xb3, 0x4b, 0x2e, 0x19, 0x07, 0x28, 0x0f, 0x66, 0x0f, 0x74, 0xc8, 0x45, 0x57, 0xa8, 0xcb, 0xc0,
  0xdb, 0xfb, 0xd3, 0xb9, 0x39, 0x5f, 0x0b, 0xd2, 0x0a, 0x32, 0x60, 0x1a, 0xbd, 0xc0, 0x79, 0x55,
  0x79, 0x72, 0x2c, 0x40, 0xc6, 0x00, 0xa1, 0xd6, 0xcc, 0xa3, 0x1f, 0xfb, 0xfe, 0x25, 0x9f, 0x67,
  0xf8, 0x22, 0x32, 0xdb, 0xf8, 0xe9, 0xa5, 0x8e, 0x15, 0x6b, 0x61, 0xfd, 0xdf, 0x16, 0x75, 0x3c,
  0xab, 0x52, 0x05, 0xad, 0xc8, 0x1e, 0x50, 0x2f, 0x60, 0x87, 0x23, 0xfd, 0xfa, 0xb5, 0x3d, 0x32,
  0x82, 0xdf, 0x00, 0x3e, 0x48, 0x7b, 0x31, 0x53, 0xa0, 0x8c, 0x6f, 0xca, 0xbb, 0x57, 0x5c, 0x9e,
  0xdb, 0x69, 0x17, 0xdf, 0x2e, 0x56, 0x87, 0x1a, 0xc3, 0xff, 0x7e, 0x28, 0xf6, 0xa8, 0x42, 0xd5,
  0x73, 0x55, 0x4f, 0x8c, 0xc6, 0x32, 0x67, 0xac, 0xc8, 0x58, 0xca, 0xbb, 0xb0, 0x27, 0x5b, 0x69,
  0xa0, 0x11, 0xf0, 0xb8, 0x5d, 0xa3, 0xff, 0xe1, 0xb8, 0x83, 0x21, 0xfd, 0x98, 0x3d, 0xfa, 0x10,
  0x5b, 0xd3, 0xd1, 0x2d, 0x6c, 0xb5, 0xfc, 0x4a, 0x65, 0x45, 0xf8, 0xb6, 0x79, 0xe4, 0x53, 0x9a,
  0x90, 0x97, 0xfb, 0x4b, 0xbc, 0x49, 0x8e, 0xd2, 0x33, 0x7e, 0xcb, 0xa4, 0xda, 0xf2, 0xdd, 0xe1,
  0xe8, 0xc6, 0xe4, 0xce, 0x41, 0x13, 0xfb, 0x62, 0x01, 0x4c, 0x77, 0x36, 0xda, 0xca, 0x20, 0xef,
  0xb4, 0x1f, 0xf1, 0x2b, 0xfe, 0x9e, 0x7e, 0xd0, 0x98, 0x91, 0x90, 0xae, 0x4d, 0xda, 0xdb, 0x95,
  0xa0, 0xd5, 0x93, 0x6b, 0x71, 0x8e, 0xad, 0xea, 0xe0, 0x25, 0xc7, 0xaf, 0xd0, 0xd1, 0x8e, 0xd0,
  0xb7, 0x94, 0x75, 0x8e, 0x2f, 0x5b, 0x3c, 0x8e, 0x64, 0x2b, 0x12, 0xf2, 0xfb, 0xe2, 0xf6, 0x8f,
  0x1c, 0xf0, 0x0d, 0x90, 0x12, 0xb8, 0x88, 0x88, 0x1c, 0xc3, 0x8f, 0x68, 0xa0, 0x5e, 0xad, 0x4f,
  0xad, 0xc1, 0xa8, 0xb3, 0x91, 0xf1, 0xcf, 0xd1, 0x77, 0x17, 0x0e, 0xbe, 0x18, 0x22, 0x2f, 0x2f,
  0xa1, 0x1f, 0x02, 0x8b, 0xfe, 0x2d, 0x75, 0xea, 0xe8, 0x74, 0x6f, 0xb5, 0x0f, 0xcc, 0xa0, 0xe5,
  0x99, 0xe2, 0x89, 0xce, 0xd6, 0xf3, 0xac, 0x18, 0xb7, 0xe0, 0x13, 0xfd, 0xe0, 0x4f, 0xa8, 0xb4,
  0xd9, 0xa8, 0xad, 0xd2, 0x81, 0x3b, 0xc4, 0x7c, 0x05, 0x77, 0x95, 0x80, 0x66, 0xa2, 0x5f, 0x16,
  0x77, 0x14, 0x1a, 0x21, 0x14, 0x73, 0xcc, 0x93, 0x86, 0xfa, 0xb5, 0x77, 0x65, 0x20, 0xad, 0xe6,
  0xcf, 0x35, 0x9d, 0xfb, 0xf5, 0x42, 0x54, 0xc7, 0xa0, 0x89, 0x3e, 0x7b, 0x0c, 0xaf, 0xcd, 0xeb,
  0x49, 0x7e, 0x1e, 0xae, 0xd3, 0x1b, 0x41, 0xd6, 0x5e, 0xb3, 0x71, 0x20, 0x2d, 0x0e, 0x25, 0x00,
  0xaf, 0xe0, 0xb8, 0x57, 0xbb, 0x00, 0x68, 0x22, 0x1e, 0xb9, 0x09, 0xf0, 0x9b, 0x36, 0x64, 0x24,
  0xaa, 0xa6, 0xdf, 0x59, 0x1d, 0x91, 0x63, 0x55, 0x7f, 0x53, 0x5a, 0xd9, 0x89, 0x43, 0xc1, 0x78,
  0xc5, 0xb9, 0xe5, 0x02, 0xa2, 0x5b, 0x7d, 0x20, 0xa9, 0xcf, 0x95, 0x62, 0x76, 0x03, 0x26, 0x83,
  0x41, 0x4a, 0x73, 0x4e, 0x68, 0x19, 0xc8, 0x11, 0x4a, 0xa9, 0x14, 0x7b, 0xca, 0x2d, 0x47, 0xb3]

/-- Go `testHexExpected`: the digits that the test expects from `testHexBytes`. -/
def testHexExpected : GoString :=
  asciiBytes "243f6a8885a308d313198a2e03707344a4093822299f31d0082efa98ec4e6c89452821e638d01377be5466cf34e90c6cc0ac"
    ++ asciiBytes "29b7c97c50dd3f84d5b5b54709179216d5d98979fb1bd1310ba698dfb5ac2ffd72dbd01adfb7b8e1afed6a267e96ba7c9045"
    ++ asciiBytes "f12c7f9924a19947b3916cf70801f2e2858efc16636920d871574e69a458fea3f4933d7e0d95748f728eb658718bcd588215"
    ++ asciiBytes "4aee7b54a41dc25a59b59c30d5392af26013c5d1b023286085f0ca417918b8db38ef8e79dcb0603a180e6c9e0e8bb01e8a3e"
    ++ asciiBytes "d71577c1bd314b2778af2fda55605c60e65525f3aa55ab945748986263e8144055ca396a2aab10b6b4cc5c341141e8cea154"
    ++ asciiBytes "86af7c72e993b3ee1411636fbc2a2ba9c55d741831f6ce5c3e169b87931eafd6ba336c24cf5c7a325381289586773b8f4898"
    ++ asciiBytes "6b4bb9afc4bfe81b6628219361d809ccfb21a991487cac605dec8032ef845d5de98575b1dc262302eb651b8823893e81d396"
    ++ asciiBytes "acc50f6d6ff383f442392e0b4482a484200469c8f04a9e1f9b5e21c66842f6e96c9a670c9c61abd388f06a51a0d2d8542f68"
    ++ asciiBytes "960fa728ab5133a36eef0b6c137a3be4ba3bf0507efb2a98a1f1651d39af017666ca593e82430e888cee8619456f9fb47d84"
    ++ asciiBytes "a5c33b8b5ebee06f75d885c12073401a449f56c16aa64ed3aa62363f77061bfedf72429b023d37d0d724d00a1248db0fead3"
    ++ asciiBytes "49f1c09b075372c980991b7b25d479d8f6e8def7e3fe501ab6794c3b976ce0bd04c006bac1a94fb6409f60c45e5c9ec2196a"
    ++ asciiBytes "246368fb6faf3e6c53b51339b2eb3b52ec6f6dfc511f9b30952ccc814544af5ebd09bee3d004de334afd660f2807192e4bb3"
    ++ asciiBytes "c0cba85745c8740fd20b5f39b9d3fbdb5579c0bd1a60320ad6a100c6402c7279679f25fefb1fa3cc8ea5e9f8db3222f83c75"
    ++ asciiBytes "16dffd616b152f501ec8ad0552ab323db5fafd23876053317b483e00df829e5c57bbca6f8ca01a87562edf1769dbd542a8f6"
    ++ asciiBytes "287effc3ac6732c68c4f5573695b27b0bbca58c8e1ffa35db8f011a010fa3d98fd2183b84afcb56c2dd1d35b9a53e479b6f8"
    ++ asciiBytes "4565d28e49bc4bfb9790e1ddf2daa4cb7e3362fb1341cee4c6e8ef20cada36774c01d07e9efe2bf11fb495dbda4dae909198"
    ++ asciiBytes "eaad8e716b93d5a0d08ed1d0afc725e08e3c5b2f8e7594b78ff6e2fbf2122b648888b812900df01c4fad5ea0688fc31cd1cf"
    ++ asciiBytes "f191b3a8c1ad2f2f2218be0e1777ea752dfe8b021fa1e5a0cc0fb56f74e818acf3d6ce89e299b4a84fe0fd13e0b77cc43b81"
    ++ asciiBytes "d2ada8d9165fa2668095770593cc7314211a1477e6ad206577b5fa86c75442f5fb9d35cfebcdaf0c7b3e89a0d6411bd3ae1e"
    ++ asciiBytes "7e4900250e2d2071b35e226800bb57b8e0af2464369bf009b91e5563911d59dfa6aa78c14389d95a537f207d5ba202e5b9c5"
    ++ asciiBytes "832603766295cfa911c819684e734a41b3472dca7b14a94a"

/-- Go `testDecMultipleBlocks`: four blocks of two words each; the last word is dummy data. -/
def testDecMultipleBlocks : List Nat := [
  0x60, 0xe2, 0x3e, 0xb8, 0xae, 0x61, 0xa6, 0x13, 0x00, 0x0f, 0x58, 0xf3, 0x84, 0x66, 0xef, 0x56,
  0x17, 0x3f, 0x65, 0x1a, 0x21, 0x09, 0xca, 0x45, 0x00, 0x60, 0x5b, 0x4a, 0x96, 0x06, 0x14, 0x08,
  0x09, 0xfb, 0xd6, 0x59, 0x35, 0x00, 0x33, 0x52, 0x00, 0xe9, 0xe5, 0x0f, 0x83, 0xb7, 0xdf, 0x88,
  0x00, 0xe6, 0xc6, 0x3d, 0x9b, 0x70, 0x7a, 0x2f, 0x00, 0x00, 0x00, 0x00, 0x00, 0x00, 0x00, 0x00]

/-! ## The block catalog and the digit stream reader -/

/-- Modelled from the spec: a block of the catalog (BlockDescriptor and
BlockHeader of the packages `resultset` and `ycd`, not among the sources): the
number of digits that the block stands for, and the bytes of its packed word
payload, which start after the preamble of the stored object. -/
structure Block where
  blockSize : Nat
  payload : List Nat
deriving DecidableEq

/-- Modelled from the spec: the byte size of a block, "blockSize *
wordByteWidth / digitsPerWord, rounded per word". -/
def blockBytes (fmt : WordFormat) (b : Block) : Nat :=
  ((b.blockSize + fmt.digitsPerWord - 1) / fmt.digitsPerWord) * fmt.wordBytes

/-- Modelled from the spec: the logical raw-byte stream of the BlockCatalog,
"the raw packed bytes of all blocks concatenated in blockID order". -/
def rawStream (fmt : WordFormat) (cat : List Block) : List Nat :=
  (cat.map (fun b => b.payload.take (blockBytes fmt b))).flatten

/-- Number of words of the raw stream of a catalog. -/
def catalogWords (fmt : WordFormat) (cat : List Block) : Nat :=
  (cat.map (fun b => (b.blockSize + fmt.digitsPerWord - 1) / fmt.digitsPerWord)).sum

/-- Number of digits that the blocks of a catalog stand for. -/
def catalogDigits (cat : List Block) : Nat := (cat.map (fun b => b.blockSize)).sum

/-- The digits of the blocks of a catalog, one block after the other: every
block contributes its first `blockSize` digits ("the cumulative sum of
blockSize over blocks [0..k] equals the starting digit offset of block
k+1"). -/
def blockDigits (fmt : WordFormat) (cat : List Block) : GoString :=
  (cat.map (fun b => (decodeAll fmt (b.payload.take (blockBytes fmt b))).take
    b.blockSize)).flatten

/-- The logical digit stream of a catalog: the digits of its blocks, ended
after `totalDigits` digits. -/
def logicalDigits (fmt : WordFormat) (cat : List Block) (totalDigits : Nat) : GoString :=
  (blockDigits fmt cat).take totalDigits

/-- Errors of the reader: the end of the stream, a digit offset that no block
of the catalog holds, and a short read of the raw stream. -/
inductive ReadError where
  | eof
  | outOfRange
  | shortRead
deriving DecidableEq

/-- Modelled from the spec: the DecodedPosition of the digit offset `p` in a
catalog whose first word has the index `w0` in the raw stream: the block that
holds the digit is found by the cumulative block sizes (block `k+1` starts at
the digit offset that is the sum of the sizes of the blocks `0..k`), and inside
the block the offset `q` of the digit is mapped to `(wordIndex = q /
digitsPerWord, digitInWord = q % digitsPerWord)`. The result is the index of
the word in the raw stream and the digit in the word; `none` when no block
holds the digit. The test `TestUnpack_ReaderWithBoundaries` reads blocks of 30
digits of 19-digit words this way. -/
def locate (fmt : WordFormat) : List Block → Nat → Nat → Option (Nat × Nat)
  | [], _, _ => none
  | b :: rest, w0, p =>
    if p < b.blockSize then some (w0 + p / fmt.digitsPerWord, p % fmt.digitsPerWord)
    else
      locate fmt rest (w0 + (b.blockSize + fmt.digitsPerWord - 1) / fmt.digitsPerWord)
        (p - b.blockSize)

/-- Modelled from the spec: the state of the DigitStreamReader
(`unpack.Reader`, not among the sources): the catalog behind the raw-byte
view, the size of the stream, the digit cursor, and "the currently buffered
decoded word (if any)" with the index of the word in the raw stream. -/
structure Reader where
  fmt : WordFormat
  cat : List Block
  totalDigits : Nat
  pos : Nat
  word : Option (Nat × GoString)
deriving DecidableEq

/-- Modelled from the spec: a new reader over a catalog, in the state
Uninitialized (no word buffered), the cursor at 0. -/
def NewReader (fmt : WordFormat) (cat : List Block) (totalDigits : Nat) : Reader :=
  ⟨fmt, cat, totalDigits, 0, none⟩

/-- The digit `p` of a raw stream of whole words, `(wordIndex = p /
digitsPerWord, digitInWord = p % digitsPerWord)`. -/
def wordDigitAt (fmt : WordFormat) (raw : List Nat) (p : Nat) : Option Nat :=
  match fetchWord fmt raw (p / fmt.digitsPerWord) with
  | none => none
  | some ds => ds[p % fmt.digitsPerWord]?

/-- Modelled from the spec: the digit at the offset `p` of a catalog, through
the DecodedPosition mapping: "seek the raw reader to wordIndex *
wordByteWidth, read exactly one word, decode it". -/
def digitAt (fmt : WordFormat) (cat : List Block) (p : Nat) : Option Nat :=
  match locate fmt cat 0 p with
  | none => none
  | some (wi, d) =>
    match fetchWord fmt (rawStream fmt cat) wi with
    | none => none
    | some ds => ds[d]?

/-- The decoded word with the index `wi`: the buffered word when it is that
one, a freshly fetched word otherwise. -/
def Reader.loadWord (r : Reader) (wi : Nat) : Option GoString :=
  match r.word with
  | some (k, ds) => if k = wi then some ds else fetchWord r.fmt (rawStream r.fmt r.cat) wi
  | none => fetchWord r.fmt (rawStream r.fmt r.cat) wi

/-- Modelled from the spec: one requested byte of `Read`: "if the cursor falls
outside the buffered word, compute (wordIndex, digitInWord), ..., read exactly
one word, decode it, and refill the buffer; then copy the relevant digit,
advancing the cursor". -/
def Reader.readByte (r : Reader) : Except ReadError (Nat × Reader) :=
  if r.totalDigits ≤ r.pos then Except.error ReadError.eof
  else
    match locate r.fmt r.cat 0 r.pos with
    | none => Except.error ReadError.outOfRange
    | some (wi, d) =>
      match r.loadWord wi with
      | none => Except.error ReadError.shortRead
      | some ds =>
        match ds[d]? with
        | none => Except.error ReadError.shortRead
        | some c => Except.ok (c, { r with pos := r.pos + 1, word := some (wi, ds) })

/-- The loop of `Read` over `n` requested bytes: the bytes copied, the error,
and the state of the reader afterwards. -/
def readLoop : Nat → Reader → GoString × Option ReadError × Reader
  | 0, r => ([], none, r)
  | n + 1, r =>
    match r.readByte with
    | Except.error e => ([], some e, r)
    | Except.ok (d, r1) =>
      let rest := readLoop n r1
      (d :: rest.1, rest.2.1, rest.2.2)

/-- Modelled from the spec: `Read(buf)` with `len(buf) = n`: "if len(buf) == 0,
returns (0, no error) without touching underlying state". -/
def Reader.Read (r : Reader) (n : Nat) : GoString × Option ReadError × Reader :=
  if n = 0 then ([], none, r) else readLoop n r

/-- The loop of `ReadAt` over `n` bytes from the digit offset `p`. -/
def readAtLoop (fmt : WordFormat) (cat : List Block) (totalDigits : Nat) :
    Nat → Nat → GoString × Option ReadError
  | 0, _ => ([], none)
  | n + 1, p =>
    if totalDigits ≤ p then ([], some ReadError.eof)
    else
      match digitAt fmt cat p with
      | none => ([], some ReadError.shortRead)
      | some d =>
        let rest := readAtLoop fmt cat totalDigits n (p + 1)
        (d :: rest.1, rest.2)

/-- Modelled from the spec: `ReadAt(buf, digitOffset)` with `len(buf) = n`:
"stateless with respect to the sequential cursor", it "resolves directly via
DecodedPosition and decodes only the words needed". -/
def Reader.ReadAt (r : Reader) (n off : Nat) : GoString × Option ReadError × Reader :=
  let res := readAtLoop r.fmt r.cat r.totalDigits n off
  (res.1, res.2, r)

/-- Modelled from the spec: `Seek(offset, io.SeekStart)`: it "updates the
logical digit cursor; lazily invalidates the buffered word if the new position
falls outside it". -/
def Reader.Seek (r : Reader) (off : Nat) : Reader :=
  { r with pos := off,
           word := match r.word, locate r.fmt r.cat 0 off with
             | some (k, ds), some (wi, _) => if wi = k then some (k, ds) else none
             | _, _ => none }

/-- A sequence of `Read` calls with buffers of the lengths `ns`: the bytes of
every call, the first error, and the state afterwards. -/
def readMany : List Nat → Reader → List GoString × Option ReadError × Reader
  | [], r => ([], none, r)
  | n :: ns, r =>
    match r.Read n with
    | (d, some e, r1) => ([d], some e, r1)
    | (d, none, r1) =>
      let rest := readMany ns r1
      (d :: rest.1, rest.2.1, rest.2.2)

/-- The buffered word of the reader, if any, is the decoded word of its
index. -/
def Reader.Consistent (r : Reader) : Prop :=
  match r.word with
  | none => True
  | some (k, ds) => fetchWord r.fmt (rawStream r.fmt r.cat) k = some ds

instance (r : Reader) : Decidable r.Consistent := by
  unfold Reader.Consistent
  cases r.word with
  | none => exact instDecidableTrue
  | some kd =>
    exact inferInstanceAs (Decidable (fetchWord r.fmt (rawStream r.fmt r.cat) kd.1 = some kd.2))

/-- The reader stays on the same stream. -/
def SameStream (r r1 : Reader) : Prop :=
  r1.fmt = r.fmt ∧ r1.cat = r.cat ∧ r1.totalDigits = r.totalDigits

/-- The payload of every block holds the words of the block, and the blocks
hold the digits of the stream. -/
def Covered (fmt : WordFormat) (cat : List Block) (totalDigits : Nat) : Prop :=
  0 < fmt.digitsPerWord ∧ (∀ b ∈ cat, blockBytes fmt b ≤ b.payload.length) ∧
    totalDigits ≤ catalogDigits cat

/-- The digit at the offset `p` (0 when no block holds it). -/
def refDigit (fmt : WordFormat) (cat : List Block) (p : Nat) : Nat := (digitAt fmt cat p).getD 0

/-- The catalog of `TestUnpack_ReaderWithBoundaries`: four blocks of 30 digits,
two words each, over `testDecMultipleBlocks`. -/
def testCatalog : List Block :=
  [⟨30, (testDecMultipleBlocks.drop 0).take 16⟩, ⟨30, (testDecMultipleBlocks.drop 16).take 16⟩,
   ⟨30, (testDecMultipleBlocks.drop 32).take 16⟩, ⟨30, (testDecMultipleBlocks.drop 48).take 16⟩]

/-- The unsplit test block of `TestUnpack_UnpackReader`: all the digits of
`testDecExpected` in one block over `testDecBytes`. -/
def testBlock : Block := ⟨2432, testDecBytes⟩

/-- A reader over the catalog of `TestUnpack_ReaderWithBoundaries` in the
middle of a sequential pass: the cursor at the digit 25, the second word of the
first block buffered. -/
def sampleSplitReader : Reader :=
  ((NewReader (testFormat 10) testCatalog 100).Seek 20).Read 5 |>.2.2

/-! ## The inner loop -/

theorem index_natCast (s : GoString) (k : Nat) (h : k < s.length) :
    index s (k : Int) = s[k]? := by
  unfold index
  have h1 : (0 : Int) ≤ (k : Int) ∧ (k : Int) < (s.length : Int) := by omega
  rw [if_pos h1]
  simp

theorem loopCond_eq (s : GoString) (i p : Nat) :
    loopCond s i p = some (decide (¬ stopsAt s i p)) := by
  unfold loopCond stopsAt
  by_cases hg : (i : Int) - p ≥ 0 ∧ (i : Int) + p < (s.length : Int)
  · rw [if_pos hg]
    have e1 : (i : Int) - (p : Int) = ((i - p : Nat) : Int) := by omega
    have e2 : (i : Int) + (p : Int) = ((i + p : Nat) : Int) := by omega
    have b1 : i - p < s.length := by omega
    have b2 : i + p < s.length := by omega
    have h1 : index s ((i : Int) - p) = some s[i - p] := by
      rw [e1, index_natCast s _ b1, List.getElem?_eq_getElem b1]
    have h2 : index s ((i : Int) + p) = some s[i + p] := by
      rw [e2, index_natCast s _ b2, List.getElem?_eq_getElem b2]
    have n1 : ¬ ((i : Int) - p < 0) := by omega
    have n2 : ¬ ((i : Int) + p ≥ (s.length : Int)) := by omega
    rw [h1, h2]
    simp [n1, n2, List.getElem?_eq_getElem b1, List.getElem?_eq_getElem b2]
    by_cases hv : s[i - p] = s[i + p]
    · simp [hv]
    · simp [hv]
  · rw [if_neg hg]
    have : (i : Int) - p < 0 ∨ (i : Int) + p ≥ (s.length : Int) := by omega
    rcases this with h | h
    · simp [h]
    · simp [h]

theorem expand_spec (s : GoString) (i : Nat) :
    ∀ fuel p : Nat, 0 < fuel → s.length < fuel + i + p →
      ∃ r, expand s i fuel p = some r ∧ IsFinalRadius s p i r := by
  intro fuel
  induction fuel with
  | zero => intro p h; omega
  | succ f ih =>
    intro p _ hlen
    unfold expand
    rw [loopCond_eq]
    by_cases hs : stopsAt s i p
    · refine ⟨p, ?_, le_refl p, hs, ?_⟩
      · simp [hs]
      · intro q h1 h2; omega
    · have hb : (i : Int) + p < (s.length : Int) := by
        unfold stopsAt at hs
        push_neg at hs
        exact hs.2.1
      have hf : 0 < f := by omega
      obtain ⟨r, hr, h1, h2, h3⟩ := ih (p + 1) hf (by omega)
      refine ⟨r, ?_, by omega, h2, ?_⟩
      · simp [hs, hr]
      · intro q hq1 hq2
        by_cases hqp : q = p
        · subst hqp; exact hs
        · exact h3 q (by omega) hq2

theorem radius_spec (s : GoString) (ps i : Nat) :
    expand s i (s.length + 1) ps = some (radius s ps i) ∧ IsFinalRadius s ps i (radius s ps i) := by
  obtain ⟨r, hr, hf⟩ := expand_spec s i (s.length + 1) ps (by omega) (by omega)
  have : radius s ps i = r := by simp [radius, hr]
  rw [this]
  exact ⟨hr, hf⟩

theorem finalRadius_unique (s : GoString) (ps i r1 r2 : Nat)
    (h1 : IsFinalRadius s ps i r1) (h2 : IsFinalRadius s ps i r2) : r1 = r2 := by
  obtain ⟨a1, b1, c1⟩ := h1
  obtain ⟨a2, b2, c2⟩ := h2
  rcases Nat.lt_trichotomy r1 r2 with h | h | h
  · exact absurd b1 (c2 r1 a1 h)
  · exact h
  · exact absurd b2 (c1 r2 a2 h)

/-- At a center of the scanned range the final radius stays inside the
buffer. -/
theorem finalRadius_bound (s : GoString) (ps i r : Nat) (hf : IsFinalRadius s ps i r)
    (hi : (i : Int) < (s.length : Int) - 1 - ps) (hp : ps ≤ i) :
    i + r ≤ s.length ∧ r ≤ i + 1 := by
  obtain ⟨a, _, c⟩ := hf
  by_cases h : r = ps
  · omega
  · have hn := c (r - 1) (by omega) (by omega)
    unfold stopsAt at hn
    push_neg at hn
    omega

/-! ## The scan -/

theorem slice_natCast (s : GoString) (lo hi : Nat) (h1 : lo ≤ hi) (h2 : hi ≤ s.length) :
    slice s (lo : Int) (hi : Int) = some (substr s lo hi) := by
  unfold slice
  have hc : (0 : Int) ≤ (lo : Int) ∧ (lo : Int) ≤ (hi : Int) ∧ (hi : Int) ≤ (s.length : Int) := by
    omega
  rw [if_pos hc]
  simp

theorem substr_length (s : GoString) (lo hi : Nat) (h2 : hi ≤ s.length) :
    (substr s lo hi).length = hi - lo := by
  unfold substr
  simp
  omega

theorem toString_natCast (i : Nat) : toString (i : Int) = natDigits i := by
  have h : ¬ ((i : Int) < 0) := by omega
  simp [toString, Itoa, h]

theorem scanFrom_eq (b : task) (idxs : List Nat) :
    scanFrom b idxs = some
      (((beforeBreak b idxs).filter
          (fun i => decide (Qualifies b.unp b.offset i (radius b.unp b.offset i)))).map
        (fun i => recordOf b i (radius b.unp b.offset i))) := by
  induction idxs with
  | nil => simp [scanFrom, beforeBreak]
  | cons i rest ih =>
    unfold scanFrom
    by_cases hbr : (i : Int) ≥ ((b.unp.length : Int) - 1) - b.offset
    · rw [if_pos hbr]
      have : ¬ ((i : Int) < (b.unp.length : Int) - 1 - b.offset) := by omega
      simp [beforeBreak, List.takeWhile_cons, this]
    · rw [if_neg hbr]
      have hlt : (i : Int) < (b.unp.length : Int) - 1 - b.offset := by omega
      have htw : beforeBreak b (i :: rest) = i :: beforeBreak b rest := by
        simp [beforeBreak, List.takeWhile_cons, hlt]
      rw [htw]
      obtain ⟨hexp, hfin⟩ := radius_spec b.unp b.offset i
      by_cases hct : (i : Int) - b.offset < 0
      · rw [if_pos hct]
        have hq : ¬ Qualifies b.unp b.offset i (radius b.unp b.offset i) := by
          intro h; have := h.1; omega
        rw [List.filter_cons_of_neg (by simpa using hq)]
        exact ih
      · rw [if_neg hct, hexp]
        have hps : b.offset ≤ i := by omega
        obtain ⟨hb1, hb2⟩ := finalRadius_bound b.unp b.offset i _ hfin hlt hps
        by_cases hem : (i : Int) - (radius b.unp b.offset i : Nat) > 0
            ∧ radius b.unp b.offset i > 8
        · simp only [hem, and_self, if_true]
          have hq : Qualifies b.unp b.offset i (radius b.unp b.offset i) :=
            ⟨hps, hlt, hfin, hem.2, hem.1⟩
          rw [List.filter_cons_of_pos (by simpa using hq), List.map_cons]
          have e1 : (i : Int) - (radius b.unp b.offset i : Nat) + 1
              = ((i - radius b.unp b.offset i + 1 : Nat) : Int) := by omega
          have e2 : (i : Int) + (radius b.unp b.offset i : Nat)
              = ((i + radius b.unp b.offset i : Nat) : Int) := by omega
          rw [e1, e2, slice_natCast b.unp _ _ (by omega) hb1, ih]
          have hl := substr_length b.unp (i - radius b.unp b.offset i + 1)
            (i + radius b.unp b.offset i) hb1
          simp only [recordOf, toString_natCast, hl]
          congr 3
          omega
        · dsimp only
          rw [if_neg hem]
          have hq : ¬ Qualifies b.unp b.offset i (radius b.unp b.offset i) := by
            intro h; exact hem ⟨h.2.2.2.2, h.2.2.2.1⟩
          rw [List.filter_cons_of_neg (by simpa using hq)]
          exact ih

/-! ## The range loop on a buffer of single-byte characters -/

theorem runeWidth_ascii (c : Nat) (rest : GoString) (h : c < 128) : runeWidth (c :: rest) = 1 := by
  have hl : leadInfo c = none := by
    unfold leadInfo
    split_ifs <;> first | rfl | omega
  simp [runeWidth, hl]

theorem rangeFrom_ascii (s : GoString) :
    ∀ pos : Nat, (∀ c ∈ s, c < 128) → rangeFrom s pos 0 = List.range' pos s.length := by
  induction s with
  | nil => intro pos _; simp [rangeFrom]
  | cons c rest ih =>
    intro pos h
    have hc : c < 128 := h c (List.mem_cons_self c rest)
    have hr : ∀ d ∈ rest, d < 128 := fun d hd => h d (List.mem_cons_of_mem c hd)
    simp [rangeFrom, runeWidth_ascii c rest hc, ih (pos + 1) hr, List.range'_succ]

theorem rangeIndices_ascii (s : GoString) (h : ∀ c ∈ s, c < 128) :
    rangeIndices s = List.range s.length := by
  rw [rangeIndices, rangeFrom_ascii s 0 h, List.range_eq_range']

theorem takeWhile_lt_range' (m : Int) :
    ∀ n a : Nat, (List.range' a n).takeWhile (fun i : Nat => decide ((i : Int) < m))
      = (List.range' a n).filter (fun i : Nat => decide ((i : Int) < m)) := by
  intro n
  induction n with
  | zero => intro a; simp
  | succ k ih =>
    intro a
    rw [List.range'_succ]
    by_cases h : (a : Int) < m
    · rw [List.takeWhile_cons_of_pos (by simpa using h),
        List.filter_cons_of_pos (by simpa using h), ih]
    · rw [List.takeWhile_cons_of_neg (by simpa using h),
        List.filter_cons_of_neg (by simpa using h)]
      symm
      rw [List.filter_eq_nil_iff]
      intro x hx
      have := (List.mem_range'_1.1 hx).1
      simp only [decide_eq_true_eq]
      omega

/-! ## Properties of the emitted records -/

theorem substr_getElem? (s : GoString) (lo hi k : Nat) (hk : k < hi - lo) :
    (substr s lo hi)[k]? = s[lo + k]? := by
  unfold substr
  rw [List.getElem?_take_of_lt hk, List.getElem?_drop]

/-- A text whose characters mirror around the center `i` up to the radius `r`
reads the same in both directions. -/
theorem substr_reverse (s : GoString) (i r : Nat) (hr : r ≤ i) (hlen : i + r ≤ s.length)
    (hm : ∀ d, d < r → s[i - d]? = s[i + d]?) :
    (substr s (i - r + 1) (i + r)).reverse = substr s (i - r + 1) (i + r) := by
  have hl := substr_length s (i - r + 1) (i + r) hlen
  apply List.ext_getElem?
  intro k
  by_cases hk : k < (substr s (i - r + 1) (i + r)).length
  · rw [List.getElem?_reverse hk, hl]
    rw [hl] at hk
    rw [substr_getElem? s _ _ _ (by omega), substr_getElem? s _ _ _ hk]
    by_cases hkr : k + 1 ≤ r
    · have h := hm (r - 1 - k) (by omega)
      have e1 : i - (r - 1 - k) = i - r + 1 + k := by omega
      have e2 : i + (r - 1 - k) = i - r + 1 + (i + r - (i - r + 1) - 1 - k) := by omega
      rw [e1, e2] at h
      exact h.symm
    · have h := hm (k + 1 - r) (by omega)
      have e1 : i - (k + 1 - r) = i - r + 1 + (i + r - (i - r + 1) - 1 - k) := by omega
      have e2 : i + (k + 1 - r) = i - r + 1 + k := by omega
      rw [e1, e2] at h
      exact h
  · have h1 : (substr s (i - r + 1) (i + r)).reverse.length ≤ k := by
      rw [List.length_reverse]; omega
    rw [List.getElem?_eq_none h1, List.getElem?_eq_none (by omega)]

theorem mirror_of_finalRadius (s : GoString) (ps i r : Nat) (hf : IsFinalRadius s ps i r)
    (hps : ps ≤ 1) : ∀ d, d < r → s[i - d]? = s[i + d]? := by
  intro d hd
  by_cases h0 : d = 0
  · subst h0; rfl
  · have hn := hf.2.2 d (by omega) hd
    unfold stopsAt at hn
    push_neg at hn
    exact hn.2.2

theorem mem_FindCandidates (b : task) :
    ∃ out, FindCandidates b = some out ∧
      ∀ e ∈ out, ∃ i r, Qualifies b.unp b.offset i r ∧ e = recordOf b i r := by
  refine ⟨_, scanFrom_eq b (rangeIndices b.unp), ?_⟩
  intro e he
  obtain ⟨i, hi, rfl⟩ := List.mem_map.1 he
  have hq := (List.mem_filter.1 hi).2
  exact ⟨i, _, by simpa using hq, rfl⟩

theorem Qualifies_bounds (s : GoString) (ps i r : Nat) (h : Qualifies s ps i r) :
    8 < r ∧ r < i ∧ i + r ≤ s.length := by
  obtain ⟨h1, h2, h3, h4, h5⟩ := h
  have := finalRadius_bound s ps i r h3 h2 h1
  omega

theorem FindCandidates_ascii (b : task) (hascii : ∀ c ∈ b.unp, c < 128) :
    FindCandidates b = some
      (((List.range b.unp.length).filter
          (fun i => decide (Qualifies b.unp b.offset i (radius b.unp b.offset i)))).map
        (fun i => recordOf b i (radius b.unp b.offset i))) := by
  rw [FindCandidates, scanFrom_eq, rangeIndices_ascii b.unp hascii]
  have h1 : beforeBreak b (List.range b.unp.length)
      = (List.range b.unp.length).filter
          (fun i : Nat => decide ((i : Int) < (b.unp.length : Int) - 1 - b.offset)) := by
    rw [beforeBreak, List.range_eq_range', takeWhile_lt_range']
  rw [h1, List.filter_filter]
  congr 2
  apply List.filter_congr
  intro i _
  by_cases hq : Qualifies b.unp b.offset i (radius b.unp b.offset i)
  · have := hq.2.1
    simp [hq, this]
  · simp [hq]

theorem filter_range'_single (p : Nat → Bool) (i : Nat) :
    ∀ n a : Nat, a ≤ i → i < a + n → (∀ j, a ≤ j → j < a + n → (p j = true ↔ j = i)) →
      (List.range' a n).filter p = [i] := by
  intro n
  induction n with
  | zero => intro a h1 h2 _; omega
  | succ k ih =>
    intro a h1 h2 hp
    rw [List.range'_succ]
    by_cases hai : a = i
    · subst hai
      rw [List.filter_cons_of_pos ((hp a (le_refl a) (by omega)).2 rfl)]
      congr 1
      rw [List.filter_eq_nil_iff]
      intro x hx
      have hx1 := List.mem_range'_1.1 hx
      intro hpx
      have := (hp x (by omega) (by omega)).1 hpx
      omega
    · have hna : ¬ (p a = true) := fun h => hai ((hp a (le_refl a) (by omega)).1 h)
      rw [List.filter_cons_of_neg hna]
      exact ih (a + 1) (by omega) (by omega) (fun j hj1 hj2 => hp j (by omega) (by omega))

/-! ## The claims about the scanner -/

/-- C1: on a buffer `s` of single-byte characters, with `r` the least value
`>= ps` at which the expansion around `i` stops (`i-r < 0`, or
`i+r >= len(s)`, or `s[i-r] != s[i+r]`), `FindCandidates` returns, and emits
exactly one record for each center `i` with `ps <= i < len(s)-1-ps`, `r > 8`
and `i - r > 0`, in increasing order of `i`, and nothing else; the record of
the center `i` carries the text `s[i-r+1 : i+r]` and the length `2r-1`. -/
theorem FindCandidates_emits_exactly (b : task) (hascii : ∀ c ∈ b.unp, c < 128) :
    ∃ rad : Nat → Nat,
      (∀ i, IsFinalRadius b.unp b.offset i (rad i)) ∧
      FindCandidates b = some
        (((List.range b.unp.length).filter
            (fun i => decide (Qualifies b.unp b.offset i (rad i)))).map
          (fun i => ⟨b.start, natDigits i, substr b.unp (i - rad i + 1) (i + rad i),
            2 * rad i - 1⟩)) :=
  ⟨radius b.unp b.offset, fun i => (radius_spec b.unp b.offset i).2, FindCandidates_ascii b hascii⟩

/-- Witness of C1: the 19-digit buffer of `sample17`. -/
theorem FindCandidates_emits_exactly_witness :
    (∀ c ∈ sample17.unp, c < 128) ∧ ∃ rad : Nat → Nat,
      (∀ i, IsFinalRadius sample17.unp sample17.offset i (rad i)) ∧
      FindCandidates sample17 = some
        (((List.range sample17.unp.length).filter
            (fun i => decide (Qualifies sample17.unp sample17.offset i (rad i)))).map
          (fun i => ⟨sample17.start, natDigits i,
            substr sample17.unp (i - rad i + 1) (i + rad i), 2 * rad i - 1⟩)) :=
  ⟨by decide, FindCandidates_emits_exactly sample17 (by decide)⟩

/-- C2, as the code has it: `FindCandidates` returns for every buffer and every
`ps`, and the text of every record has the length stored in the record, which
is odd and at least 17; for `ps <= 1` the text equals its own reverse. -/
theorem FindCandidates_text_palindrome (b : task) :
    ∃ out, FindCandidates b = some out ∧
      ∀ e ∈ out, e.pal.length = e.len ∧ e.len % 2 = 1 ∧ 17 ≤ e.len ∧
        (b.offset ≤ 1 → e.pal.reverse = e.pal) := by
  obtain ⟨out, hout, hall⟩ := mem_FindCandidates b
  refine ⟨out, hout, ?_⟩
  intro e he
  obtain ⟨i, r, hq, rfl⟩ := hall e he
  obtain ⟨h8, hri, hlen⟩ := Qualifies_bounds _ _ _ _ hq
  refine ⟨?_, ?_, ?_, ?_⟩
  · simp only [recordOf]
    rw [substr_length _ _ _ hlen]
    omega
  · simp only [recordOf]; omega
  · simp only [recordOf]; omega
  · intro hps
    simp only [recordOf]
    exact substr_reverse b.unp i r (by omega) hlen
      (mirror_of_finalRadius b.unp b.offset i r hq.2.2.1 hps)

/-- C2 fails as stated: with `ps = 2` the scan of `sampleOffset2` emits the
17-character text `12345678097654321`, which is not a palindrome. -/
theorem FindCandidates_text_not_palindrome :
    FindCandidates sampleOffset2
        = some [⟨0, asciiBytes "10", asciiBytes "12345678097654321", 17⟩] ∧
      (asciiBytes "12345678097654321").reverse ≠ asciiBytes "12345678097654321" := by
  decide

/-- C5: `FindCandidates` emits nothing for a buffer shorter than 19
characters, whatever `ps` is. -/
theorem FindCandidates_short (b : task) (h : b.unp.length < 19) : FindCandidates b = some [] := by
  obtain ⟨out, hout, hall⟩ := mem_FindCandidates b
  rw [hout]
  cases out with
  | nil => rfl
  | cons e rest =>
    obtain ⟨i, r, hq, _⟩ := hall e (List.mem_cons_self e rest)
    have := Qualifies_bounds _ _ _ _ hq
    omega

/-- Witness of C5: the input `12321` with `ps = 0`. -/
theorem FindCandidates_short_witness :
    sampleShort.unp.length < 19 ∧ FindCandidates sampleShort = some [] :=
  ⟨by decide, FindCandidates_short sampleShort (by decide)⟩

/-- C4, as the code has it: when a buffer of single-byte characters holds a
19-character palindrome around a center `i > 10` that cannot be extended (the
final radius of `i` is 10) and no other center qualifies, `FindCandidates`
with `ps = 0` emits exactly one record; its text is that palindrome and its
length field is 19. -/
theorem FindCandidates_one_record (b : task) (i : Nat) (hascii : ∀ c ∈ b.unp, c < 128)
    (hps : b.offset = 0) (hpal : IsFinalRadius b.unp 0 i 10) (hi : 10 < i)
    (hother : ∀ j, j < b.unp.length → j ≠ i → ∀ r, r < j → ¬ Qualifies b.unp 0 j r) :
    FindCandidates b = some [⟨b.start, natDigits i, substr b.unp (i - 9) (i + 10), 19⟩] := by
  rw [FindCandidates_ascii b hascii, hps]
  have hrad : radius b.unp 0 i = 10 :=
    finalRadius_unique b.unp 0 i _ _ (radius_spec b.unp 0 i).2 hpal
  have h9 := hpal.2.2 9 (by omega) (by omega)
  unfold stopsAt at h9
  push_neg at h9
  have hqi : Qualifies b.unp 0 i 10 := ⟨by omega, by omega, hpal, by omega, by omega⟩
  have hf : (List.range b.unp.length).filter
      (fun j => decide (Qualifies b.unp 0 j (radius b.unp 0 j))) = [i] := by
    rw [List.range_eq_range']
    apply filter_range'_single _ i b.unp.length 0 (by omega) (by omega)
    intro j _ hj
    simp only [decide_eq_true_eq]
    constructor
    · intro hq
      by_contra hne
      have hlt : radius b.unp 0 j < j := by have := hq.2.2.2.2; omega
      exact hother j (by omega) hne _ hlt hq
    · intro hji
      subst hji
      rw [hrad]
      exact hqi
  rw [hf]
  simp only [List.map_cons, List.map_nil, recordOf, hrad]
  have e1 : i - 10 + 1 = i - 9 := by omega
  rw [e1]

/-- Witness of C4: the 21-digit buffer of `sample19`, center 11. -/
theorem FindCandidates_one_record_witness :
    ((∀ c ∈ sample19.unp, c < 128) ∧ sample19.offset = 0 ∧
        IsFinalRadius sample19.unp 0 11 10 ∧ 10 < 11 ∧
        ∀ j, j < sample19.unp.length → j ≠ 11 → ∀ r, r < j → ¬ Qualifies sample19.unp 0 j r) ∧
      FindCandidates sample19
        = some [⟨sample19.start, natDigits 11, substr sample19.unp (11 - 9) (11 + 10), 19⟩] :=
  ⟨⟨by decide, by decide, by decide, by decide, by decide⟩,
    FindCandidates_one_record sample19 11 (by decide) (by decide) (by decide) (by decide)
      (by decide)⟩

/-- C4 fails as stated: the 21-digit buffer of `sample19` holds a 19-character
palindrome around the center 11 and has no other qualifying center, and the
one record that `FindCandidates` emits with `ps = 0` has the length field 19,
not 17. -/
theorem FindCandidates_one_record_length_19 :
    20 ≤ sample19.unp.length ∧
      (∀ d, d ≤ 9 → sample19.unp[11 - d]? = sample19.unp[11 + d]?) ∧
      (∀ j, j < sample19.unp.length → j ≠ 11 → ∀ r, r < j → ¬ Qualifies sample19.unp 0 j r) ∧
      FindCandidates sample19
        = some [⟨0, asciiBytes "11", asciiBytes "1234567890987654321", 19⟩] := by
  decide

/-! ## The claims about the scheduler -/

theorem scheduleLoop_spec (C total : Int) (cancelled : Nat → Bool) (hC : 0 < C) :
    ∀ (fuel k : Nat) (i : Int), (total - i).toNat < fuel →
      ∃ ts, scheduleLoop C total cancelled fuel k i = some ts ∧
        (i < total → ts[0]? = some (mkTask C i)) ∧
        ∀ (j : Nat) (t : task), ts[j]? = some t → t = mkTask C (i + j * C) := by
  intro fuel
  induction fuel with
  | zero => intro k i h; omega
  | succ f ih =>
    intro k i hf
    unfold scheduleLoop
    by_cases hlt : i < total
    · rw [if_pos hlt]
      by_cases hc : cancelled k = true
      · rw [if_pos hc]
        refine ⟨[mkTask C i], rfl, fun _ => by simp, ?_⟩
        intro j t hj
        cases j with
        | zero => simp at hj; simp [← hj]
        | succ m => simp at hj
      · rw [if_neg hc]
        obtain ⟨ts, hts, _, hall⟩ := ih (k + 1) (i + C) (by omega)
        refine ⟨mkTask C i :: ts, by simp [hts], fun _ => by simp, ?_⟩
        intro j t hj
        cases j with
        | zero => simp at hj; simp [← hj]
        | succ m =>
          simp only [List.getElem?_cons_succ] at hj
          rw [hall m t hj]
          congr 1
          push_cast
          ring
    · rw [if_neg hlt]
      exact ⟨[], rfl, fun h => absurd h hlt, by simp⟩

/-- C7, as the code has it: for a start offset `s0` with `0 <= s0 < totalDigits`
the first chunk starts at `s0` when `s0 = 0` and at `s0 - 1000` otherwise, and
the `k`-th later chunk (`k >= 1`) starts at `s0 + k*C - 1000`. -/
theorem schedule_starts (C s0 total : Int) (cancelled : Nat → Bool) (hC : 0 < C)
    (h0 : 0 ≤ s0) (hlt : s0 < total) :
    ∃ ts, schedule C s0 total cancelled = some ts ∧
      (∃ t, ts[0]? = some t ∧ t.start = if s0 = 0 then s0 else s0 - 1000) ∧
      ∀ (k : Nat) (t : task), 1 ≤ k → ts[k]? = some t → t.start = s0 + k * C - 1000 := by
  obtain ⟨ts, hts, hhead, hall⟩ :=
    scheduleLoop_spec C total cancelled hC ((total - s0).toNat + 1) 0 s0 (by omega)
  refine ⟨ts, hts, ⟨mkTask C s0, hhead hlt, rfl⟩, ?_⟩
  intro k t hk hkt
  rw [hall k t hkt]
  have hk1 : (1 : Int) ≤ (k : Int) := by exact_mod_cast hk
  have hpos : 0 < (k : Int) * C := by positivity
  have hne : ¬ (s0 + (k : Int) * C = 0) := by omega
  simp [mkTask, hne]

/-- Witness of C7: a run of the program from the digit 200000000. -/
theorem schedule_starts_witness :
    (0 < CHUNK_SIZE ∧ (0 : Int) ≤ 200000000 ∧ (200000000 : Int) < 500000000) ∧
      ∃ ts, schedule CHUNK_SIZE 200000000 500000000 (fun _ => false) = some ts ∧
        (∃ t, ts[0]? = some t ∧
          t.start = if (200000000 : Int) = 0 then 200000000 else 200000000 - 1000) ∧
        ∀ (k : Nat) (t : task), 1 ≤ k → ts[k]? = some t →
          t.start = 200000000 + k * CHUNK_SIZE - 1000 :=
  ⟨by decide, schedule_starts CHUNK_SIZE 200000000 500000000 (fun _ => false) (by decide)
    (by decide) (by decide)⟩

/-- C7 fails as stated: in a run from the digit 200000000 the first chunk
starts at 199999000, not at the configured start. -/
theorem schedule_first_start_shifted :
    (schedule CHUNK_SIZE 200000000 500000000 (fun _ => false)).map
        (fun ts => ts.map (fun t => t.start))
      = some [199999000, 299999000, 399999000] ∧ (199999000 : Int) ≠ 200000000 := by
  decide

/-- C6 at the default start 0 with 300000000 digits: the ranges of the three
chunks are `[0, 100000000)`, `[99999000, 199999000)` and
`[199999000, 299999000)`; the third chunk begins exactly where the range of the
second ends, not 1000 digits before. -/
theorem schedule_third_chunk_abuts :
    (schedule CHUNK_SIZE 0 300000000 (fun _ => false)).map
        (fun ts => ts.map (fun t => (t.start, chunkEnd CHUNK_SIZE t)))
      = some [(0, 100000000), (99999000, 199999000), (199999000, 299999000)] ∧
      (199999000 : Int) ≠ 199999000 - 1000 := by
  decide

/-- C3 at the default start 0 with 300000000 digits: no scheduled chunk reads
both the digit 199998999 and the digit 199999000, so a palindrome that lies
across this point is in no buffer that the scanner sees (every emitted text is
a part `s[i-r+1 : i+r]` of one chunk's buffer `s`). -/
theorem schedule_boundary_not_covered :
    (∃ ts, schedule CHUNK_SIZE 0 300000000 (fun _ => false) = some ts ∧
      ts.length = 3 ∧
      ts.all (fun t => decide (¬ (t.start ≤ 199998999 ∧ 199999000 < chunkEnd CHUNK_SIZE t)))
        = true) ∧
    ∀ b : task, ∃ out, FindCandidates b = some out ∧
      ∀ e ∈ out, ∃ i r, e = recordOf b i r ∧ r < i ∧ i + r ≤ b.unp.length := by
  refine ⟨⟨_, rfl, by decide, by decide⟩, ?_⟩
  intro b
  obtain ⟨out, hout, hall⟩ := mem_FindCandidates b
  refine ⟨out, hout, ?_⟩
  intro e he
  obtain ⟨i, r, hq, rfl⟩ := hall e he
  have := Qualifies_bounds _ _ _ _ hq
  exact ⟨i, r, rfl, this.2.1, this.2.2⟩

/-! ## The claims about the output lines -/

theorem Itoa_natCast (n : Nat) : Itoa (n : Int) = natDigits n := by
  have h : ¬ ((n : Int) < 0) := by omega
  simp [Itoa, h]

/-- C8, as the code has it: `FindCandidates` returns, and every record carries
the chunk start as its first field and, as its second field, the base-10
rendering of the center `i` counted from the beginning of the buffer (the
text of the record is `s[i-r+1 : i+r]`); the chunk start is not added to it. -/
theorem FindCandidates_index_field (b : task) :
    ∃ out, FindCandidates b = some out ∧
      ∀ e ∈ out, e.start = b.start ∧
        ∃ i r, Qualifies b.unp b.offset i r ∧ e.index = natDigits i ∧
          e.pal = substr b.unp (i - r + 1) (i + r) ∧
          formatLine e = Itoa b.start ++ asciiBytes ", " ++ natDigits i ++ asciiBytes ", "
            ++ e.pal ++ asciiBytes ", " ++ natDigits (2 * r - 1) ++ asciiBytes " \n" := by
  obtain ⟨out, hout, hall⟩ := mem_FindCandidates b
  refine ⟨out, hout, ?_⟩
  intro e he
  obtain ⟨i, r, hq, rfl⟩ := hall e he
  exact ⟨rfl, i, r, hq, rfl, rfl, by simp [formatLine, recordOf, Itoa_natCast]⟩

/-- C8 fails as stated: for the chunk that starts at the digit 99999000 the
record of the center 10 has the second field `10`, not the rendering
`99999010` of `chunkStart + i`. -/
theorem FindCandidates_index_relative :
    FindCandidates sampleSecondChunk
        = some [⟨99999000, asciiBytes "10", asciiBytes "12345678987654321", 17⟩] ∧
      output sampleSecondChunk
        = some (asciiBytes "99999000, 10, 12345678987654321, 17 \n") ∧
      Itoa (sampleSecondChunk.start + 10) = asciiBytes "99999010" ∧
      asciiBytes "10" ≠ asciiBytes "99999010" := by
  decide

/-- C9, as the code has it: `FindCandidates` returns, and what it writes is the
concatenation, in emission order, of one line per record: the chunk start in
base 10, the field of the center index (a base-10 number), the text and the
length of the text in base 10, separated by a comma and one space, then one
space and the newline. -/
theorem output_lines (b : task) :
    ∃ out, FindCandidates b = some out ∧
      output b = some ((out.map (fun e =>
        Itoa b.start ++ asciiBytes ", " ++ e.index ++ asciiBytes ", " ++ e.pal
          ++ asciiBytes ", " ++ natDigits e.pal.length ++ asciiBytes " \n")).flatten) ∧
      ∀ e ∈ out, ∃ i : Nat, e.index = natDigits i := by
  obtain ⟨out, hout, hall⟩ := mem_FindCandidates b
  refine ⟨out, hout, ?_, ?_⟩
  · rw [output, hout]
    simp only [Option.map_some']
    congr 2
    apply List.map_congr_left
    intro e he
    obtain ⟨i, r, hq, rfl⟩ := hall e he
    have hb := Qualifies_bounds _ _ _ _ hq
    have hl := substr_length b.unp (i - r + 1) (i + r) hb.2.2
    have : i + r - (i - r + 1) = 2 * r - 1 := by omega
    simp [formatLine, recordOf, Itoa_natCast, hl, this]
  · intro e he
    obtain ⟨i, r, _, rfl⟩ := hall e he
    exact ⟨i, rfl⟩

/-- C9 fails as stated: the line written for `sample17` has a space between
the length field and the newline. -/
theorem output_line_trailing_space :
    output sample17 = some (asciiBytes "0, 10, 12345678987654321, 17 \n") ∧
      asciiBytes "0, 10, 12345678987654321, 17 \n"
        ≠ asciiBytes "0, 10, 12345678987654321, 17\n" := by
  decide

/-! ## The claim about failed fetches -/

/-- The two error paths of `process` under the retry of the worker: an error
of the seek is returned, and `process` is called again while retries are left;
an error while reading the digits ends in `os.Exit(1)` in that very call. -/
theorem process_failure (t : task) (e : GoError) (c : Except GoError GoString)
    (o : Option GoError) (env : Nat → Attempt) (left n : Nat) :
    process t ⟨some e, c, o⟩ = Result.returned (some e) [] ∧
      retryDo t (Function.update env n ⟨some e, c, o⟩) (left + 1) n
        = retryDo t (Function.update env n ⟨some e, c, o⟩) left (n + 1) ∧
      retryDo t (fun _ => ⟨some e, c, o⟩) left n = TaskEnd.failed e (n + left + 1) ∧
      process t ⟨none, Except.error e, o⟩ = Result.exited 1 ∧
      retryDo t (Function.update env n ⟨none, Except.error e, o⟩) left n
        = TaskEnd.exited 1 (n + 1) := by
  refine ⟨rfl, ?_, ?_, rfl, ?_⟩
  · simp [retryDo, process]
  · induction left generalizing n with
    | zero => simp [retryDo, process]
    | succ m ih =>
      rw [retryDo]
      simp only [process]
      rw [ih (n + 1)]
      congr 1
      omega
  · cases left with
    | zero => simp [retryDo, process]
    | succ m => simp [retryDo, process]

/-- C10 at a failing read: when `io.CopyN` fails in the first call of
`process`, the program is terminated with status 1 in that call; the error is
not returned to the worker and no second call is made, although the worker
wraps `process` in the retry and the sibling path, a failing seek, is retried
until the retries are used up (one call and three retries). -/
theorem process_read_error_exits :
    process sample17 ⟨none, Except.error "unexpected EOF", none⟩ = Result.exited 1 ∧
      runTask sample17 (fun _ => ⟨none, Except.error "unexpected EOF", none⟩)
        = TaskEnd.exited 1 1 ∧
      process sample17 ⟨some "timeout", Except.error "unexpected EOF", none⟩
        = Result.returned (some "timeout") [] ∧
      runTask sample17 (fun _ => ⟨some "timeout", Except.error "unexpected EOF", none⟩)
        = TaskEnd.failed "timeout" 4 := by
  decide

/-! ## The claim about the bounds of the scanner -/

/-- C15: for every buffer (the empty one included) and every `ps >= 0` the
scan terminates without a panic: the loop condition never indexes `s` out of
bounds (it compares `s[i-pLen]` and `s[i+pLen]` only when `0 <= i-pLen` and
`i+pLen < len(s)`), the inner loop returns within `len(s) + 1` steps, and
every emitted slice `s[i-pLen+1 : i+pLen]` has
`0 <= i-pLen+1 <= i+pLen <= len(s)`. -/
theorem FindCandidates_in_bounds (b : task) :
    (∀ i p : Nat, ∃ v, loopCond b.unp i p = some v ∧
        (v = true → (0 : Int) ≤ (i : Int) - p ∧ (i : Int) + p < (b.unp.length : Int))) ∧
      (∀ i : Nat, ∃ r, expand b.unp i (b.unp.length + 1) b.offset = some r) ∧
      ∃ out, FindCandidates b = some out ∧
        ∀ e ∈ out, ∃ i r : Nat, e = recordOf b i r ∧
          slice b.unp ((i : Int) - r + 1) ((i : Int) + r) = some e.pal ∧
          (0 : Int) ≤ (i : Int) - r + 1 ∧ (i : Int) - r + 1 ≤ (i : Int) + r ∧
          (i : Int) + r ≤ (b.unp.length : Int) := by
  refine ⟨?_, ?_, ?_⟩
  · intro i p
    refine ⟨_, loopCond_eq b.unp i p, ?_⟩
    intro hv
    have hn : ¬ stopsAt b.unp i p := by simpa using hv
    unfold stopsAt at hn
    push_neg at hn
    omega
  · intro i
    exact ⟨_, (radius_spec b.unp b.offset i).1⟩
  · obtain ⟨out, hout, hall⟩ := mem_FindCandidates b
    refine ⟨out, hout, ?_⟩
    intro e he
    obtain ⟨i, r, hq, rfl⟩ := hall e he
    obtain ⟨h8, hri, hlen⟩ := Qualifies_bounds _ _ _ _ hq
    refine ⟨i, r, rfl, ?_, by omega, by omega, by omega⟩
    have e1 : (i : Int) - (r : Int) + 1 = ((i - r + 1 : Nat) : Int) := by omega
    have e2 : (i : Int) + (r : Int) = ((i + r : Nat) : Int) := by omega
    rw [e1, e2, slice_natCast b.unp _ _ (by omega) hlen]
    rfl

/-! ## The claims about the codec -/

theorem fixedDigits_length (radix : Nat) : ∀ k w : Nat, (fixedDigits radix k w).length = k := by
  intro k
  induction k with
  | zero => intro w; rfl
  | succ k ih => intro w; simp [fixedDigits, ih]

theorem fixedDigits_lt (radix : Nat) (hr : 0 < radix) :
    ∀ k w : Nat, ∀ d ∈ fixedDigits radix k w, d < radix := by
  intro k
  induction k with
  | zero => intro w d hd; simp [fixedDigits] at hd
  | succ k ih =>
    intro w d hd
    simp only [fixedDigits, List.mem_append, List.mem_singleton] at hd
    rcases hd with h | h
    · exact ih _ d h
    · rw [h]; exact Nat.mod_lt _ hr

theorem fixedDigits_zero (radix : Nat) : ∀ j : Nat, fixedDigits radix j 0 = List.replicate j 0 := by
  intro j
  induction j with
  | zero => rfl
  | succ j ih => simp [fixedDigits, ih, List.replicate_succ']

theorem fixedDigits_pad (radix : Nat) (hr : 0 < radix) (j : Nat) :
    ∀ k w : Nat, w < radix ^ k →
      fixedDigits radix (k + j) w = List.replicate j 0 ++ fixedDigits radix k w := by
  intro k
  induction k with
  | zero =>
    intro w hw
    have : w = 0 := by simpa using hw
    subst this
    simp [fixedDigits, fixedDigits_zero]
  | succ k ih =>
    intro w hw
    have hdiv : w / radix < radix ^ k := by
      rw [Nat.div_lt_iff_lt_mul hr]
      simpa [pow_succ] using hw
    have e : k + 1 + j = (k + j) + 1 := by omega
    rw [e]
    simp only [fixedDigits]
    rw [ih _ hdiv, List.append_assoc]

theorem digitValue_digitChar (d : Nat) (hd : d < 16) : digitValue (digitChar d) = some d := by
  unfold digitValue digitChar
  by_cases h : d < 10
  · have h1 : 48 ≤ 48 + d ∧ 48 + d ≤ 57 := by omega
    simp [h, h1]
  · have h1 : ¬ (48 ≤ 87 + d ∧ 87 + d ≤ 57) := by omega
    have h2 : 97 ≤ 87 + d ∧ 87 + d ≤ 102 := by omega
    simp [h, h1, h2]

theorem parseBase_snoc (radix : Nat) (s : GoString) (c : Nat) :
    parseBase radix (s ++ [c]) =
      match parseBase radix s, digitValue c with
      | some a, some d => if d < radix then some (a * radix + d) else none
      | _, _ => none := by
  simp [parseBase, List.foldl_append]

theorem parseBase_fixedDigits (radix : Nat) (hr : 0 < radix) (h16 : radix ≤ 16) :
    ∀ k w : Nat, parseBase radix ((fixedDigits radix k w).map digitChar)
      = some (w % radix ^ k) := by
  intro k
  induction k with
  | zero => intro w; simp [fixedDigits, parseBase, Nat.mod_one]
  | succ k ih =>
    intro w
    have hm : w % radix < radix := Nat.mod_lt _ hr
    simp only [fixedDigits, List.map_append, List.map_cons, List.map_nil]
    rw [parseBase_snoc, ih, digitValue_digitChar _ (by omega)]
    simp only [hm, if_true]
    congr 1
    rw [pow_succ', Nat.mod_mul]
    ring

theorem decodeWord_alphabet (fmt : WordFormat) (hr : 0 < fmt.radix) (h16 : fmt.radix ≤ 16)
    (w : Nat) : ∀ c ∈ decodeWord fmt w, inAlphabet fmt.radix c := by
  intro c hc
  obtain ⟨d, hd, rfl⟩ := List.mem_map.1 hc
  have hlt := fixedDigits_lt fmt.radix hr _ _ d hd
  exact ⟨d, hlt, digitValue_digitChar d (by omega)⟩

theorem parseBase_lt (radix : Nat) :
    ∀ (s : GoString) (v : Nat), parseBase radix s = some v → v < radix ^ s.length := by
  intro s
  induction s using List.reverseRecOn with
  | nil =>
    intro v hv
    have : v = 0 := by simpa [parseBase] using hv.symm
    subst this
    simp
  | append_singleton s c ih =>
    intro v hv
    rw [parseBase_snoc] at hv
    cases hp : parseBase radix s with
    | none => simp [hp] at hv
    | some a =>
      cases hd : digitValue c with
      | none => simp [hp, hd] at hv
      | some d =>
        simp only [hp, hd] at hv
        by_cases hlt : d < radix
        · simp only [hlt, if_true, Option.some.injEq] at hv
          have ha := ih a hp
          have h1 : (a + 1) * radix ≤ radix ^ s.length * radix := Nat.mul_le_mul_right _ ha
          have h2 : (a + 1) * radix = a * radix + radix := by ring
          rw [List.length_append, List.length_singleton, pow_succ]
          omega
        · simp [hlt] at hv

/-- C11, for the words that the fixed width can hold: for every 32-bit word
value `w`, `decode(w, 16)` has 8 characters of the alphabet `0-9a-f` and reads
back as `w`; for every `w < 10^9`, `decode(w, 10)` has 9 characters of the
alphabet `0-9` and reads back as `w`; for both radices a value below
`radix^k` is decoded as its `k` digits after `digitsPerWord - k` characters
`0`. -/
theorem decode_fixed_width (w : Nat) (hw : w < 2 ^ 32) :
    ((decode w 16).length = digitsPerWord 16 ∧ digitsPerWord 16 = 8 ∧
        (∀ c ∈ decode w 16, inAlphabet 16 c) ∧ parseBase 16 (decode w 16) = some w) ∧
      (w < 10 ^ 9 →
        (decode w 10).length = digitsPerWord 10 ∧ digitsPerWord 10 = 9 ∧
        (∀ c ∈ decode w 10, inAlphabet 10 c) ∧ parseBase 10 (decode w 10) = some w) ∧
      ∀ radix k : Nat, (radix = 10 ∨ radix = 16) → k ≤ digitsPerWord radix → w < radix ^ k →
        decode w radix
          = List.replicate (digitsPerWord radix - k) 48 ++ (fixedDigits radix k w).map digitChar := by
  refine ⟨⟨?_, rfl, ?_, ?_⟩, ?_, ?_⟩
  · simp [decode, decodeWord, specFormat, fixedDigits_length]
  · exact decodeWord_alphabet (specFormat 16) (by decide) (by decide) w
  · have h := parseBase_fixedDigits 16 (by decide) (by decide) 8 w
    have hm : w % 16 ^ 8 = w := Nat.mod_eq_of_lt (by omega)
    rw [hm] at h
    exact h
  · intro hlt
    refine ⟨?_, rfl, ?_, ?_⟩
    · simp [decode, decodeWord, specFormat, fixedDigits_length]
    · exact decodeWord_alphabet (specFormat 10) (by decide) (by decide) w
    · have h := parseBase_fixedDigits 10 (by decide) (by decide) 9 w
      rw [Nat.mod_eq_of_lt hlt] at h
      exact h
  · intro radix k hr hk hwk
    have hpos : 0 < radix := by rcases hr with h | h <;> omega
    have e : digitsPerWord radix = k + (digitsPerWord radix - k) := by omega
    have hd : decode w radix = (fixedDigits radix (digitsPerWord radix) w).map digitChar := rfl
    rw [hd, e, fixedDigits_pad radix hpos _ k w hwk]
    have e2 : k + (digitsPerWord radix - k) - k = digitsPerWord radix - k := by omega
    simp [digitChar, e2]

/-- Witness of C11: the word value 305419896 (`0x12345678`). -/
theorem decode_fixed_width_witness :
    (305419896 < 2 ^ 32) ∧
    (((decode 305419896 16).length = digitsPerWord 16 ∧ digitsPerWord 16 = 8 ∧
        (∀ c ∈ decode 305419896 16, inAlphabet 16 c) ∧
        parseBase 16 (decode 305419896 16) = some 305419896) ∧
      (305419896 < 10 ^ 9 →
        (decode 305419896 10).length = digitsPerWord 10 ∧ digitsPerWord 10 = 9 ∧
        (∀ c ∈ decode 305419896 10, inAlphabet 10 c) ∧
        parseBase 10 (decode 305419896 10) = some 305419896) ∧
      ∀ radix k : Nat, (radix = 10 ∨ radix = 16) → k ≤ digitsPerWord radix →
        305419896 < radix ^ k →
        decode 305419896 radix
          = List.replicate (digitsPerWord radix - k) 48
            ++ (fixedDigits radix k 305419896).map digitChar) :=
  ⟨by decide, decode_fixed_width 305419896 (by decide)⟩

/-- C11 fails as stated: the 32-bit word value 4294967295 has ten decimal
digits, and no string of `digitsPerWord(10) = 9` characters reads back as it;
so the decoded string cannot both have 9 characters and read back as the
word. -/
theorem decode_decimal_overflow :
    4294967295 < 2 ^ 32 ∧
      (¬ ∃ s : GoString, s.length = digitsPerWord 10 ∧ parseBase 10 s = some 4294967295) ∧
      ¬ ((decode 4294967295 10).length = digitsPerWord 10 ∧
          parseBase 10 (decode 4294967295 10) = some 4294967295) := by
  have key : ¬ ∃ s : GoString, s.length = digitsPerWord 10 ∧
      parseBase 10 s = some 4294967295 := by
    rintro ⟨s, hl, hp⟩
    have h := parseBase_lt 10 s _ hp
    rw [hl] at h
    have h9 : digitsPerWord 10 = 9 := rfl
    rw [h9] at h
    norm_num at h
  exact ⟨by decide, key, fun h => key ⟨_, h.1, h.2⟩⟩

/-- C12, as the test data has it: decoded as consecutive 8-byte little-endian
words of 19 decimal digits, `testDecBytes` gives `testDecExpected`, and decoded
as 8-byte little-endian words of 16 hexadecimal digits, `testHexBytes` gives
`testHexExpected`; in particular the first 19 (16) digits agree. -/
theorem testData_decodes :
    decodeAll (testFormat 10) testDecBytes = testDecExpected ∧
      decodeAll (testFormat 16) testHexBytes = testHexExpected ∧
      (decodeAll (testFormat 10) testDecBytes).take 19 = testDecExpected.take 19 ∧
      (decodeAll (testFormat 16) testHexBytes).take 16 = testHexExpected.take 16 ∧
      testDecExpected.take 19 = asciiBytes "1415926535897932384" ∧
      testHexExpected.take 16 = asciiBytes "243f6a8885a308d3" := by
  decide!

/-- C12 fails as stated: decoded in the Word format of the spec (4-byte
big-endian words of 9 decimal or 8 hexadecimal digits) the test blocks do not
give the expected digits; the first word alone gives `625439928` instead of
`141592653`, and `d308a385` instead of `243f6a88`. -/
theorem testData_not_in_spec_format :
    decodeAll (specFormat 10) testDecBytes ≠ testDecExpected ∧
      decodeAll (specFormat 16) testHexBytes ≠ testHexExpected ∧
      (decodeAll (specFormat 10) testDecBytes).take (digitsPerWord 10)
        = asciiBytes "625439928" ∧
      testDecExpected.take (digitsPerWord 10) = asciiBytes "141592653" ∧
      (decodeAll (specFormat 16) testHexBytes).take (digitsPerWord 16)
        = asciiBytes "d308a385" ∧
      testHexExpected.take (digitsPerWord 16) = asciiBytes "243f6a88" := by
  decide!

/-! ## The reader: sequential reads and `ReadAt` -/

theorem decodeWord_length (fmt : WordFormat) (w : Nat) :
    (decodeWord fmt w).length = fmt.digitsPerWord := by
  simp [decodeWord, fixedDigits_length]

theorem le_ceil_mul (bs d : Nat) (hd : 0 < d) : bs ≤ (bs + d - 1) / d * d := by
  have h1 := Nat.div_add_mod (bs + d - 1) d
  have h2 := Nat.mod_lt (bs + d - 1) hd
  have h3 : d * ((bs + d - 1) / d) = (bs + d - 1) / d * d := Nat.mul_comm _ _
  omega

theorem rawStream_length (fmt : WordFormat) :
    ∀ cat : List Block, (∀ b ∈ cat, blockBytes fmt b ≤ b.payload.length) →
      (rawStream fmt cat).length = catalogWords fmt cat * fmt.wordBytes := by
  intro cat
  induction cat with
  | nil => intro _; simp [rawStream, catalogWords]
  | cons b rest ih =>
    intro h
    have hb := h b (List.mem_cons_self b rest)
    have hr := ih (fun c hc => h c (List.mem_cons_of_mem b hc))
    simp only [rawStream, List.map_cons, List.flatten_cons, List.length_append,
      List.length_take] at hr ⊢
    rw [hr, Nat.min_eq_left hb]
    simp only [catalogWords, List.map_cons, List.sum_cons, blockBytes]
    ring

theorem locate_some (fmt : WordFormat) (hdpw : 0 < fmt.digitsPerWord) :
    ∀ (cat : List Block) (w0 p : Nat), p < catalogDigits cat →
      ∃ wi d, locate fmt cat w0 p = some (wi, d) ∧ d < fmt.digitsPerWord ∧
        wi < w0 + catalogWords fmt cat := by
  intro cat
  induction cat with
  | nil => intro w0 p hp; simp [catalogDigits] at hp
  | cons b rest ih =>
    intro w0 p hp
    have hwords : catalogWords fmt (b :: rest)
        = (b.blockSize + fmt.digitsPerWord - 1) / fmt.digitsPerWord + catalogWords fmt rest := by
      simp [catalogWords]
    have hdig : catalogDigits (b :: rest) = b.blockSize + catalogDigits rest := by
      simp [catalogDigits]
    unfold locate
    by_cases hlt : p < b.blockSize
    · rw [if_pos hlt]
      refine ⟨_, _, rfl, Nat.mod_lt _ hdpw, ?_⟩
      have hceil := le_ceil_mul b.blockSize fmt.digitsPerWord hdpw
      have : p / fmt.digitsPerWord
          < (b.blockSize + fmt.digitsPerWord - 1) / fmt.digitsPerWord := by
        apply Nat.div_lt_of_lt_mul
        rw [Nat.mul_comm]
        omega
      omega
    · rw [if_neg hlt]
      obtain ⟨wi, d, h1, h2, h3⟩ := ih
        (w0 + (b.blockSize + fmt.digitsPerWord - 1) / fmt.digitsPerWord) (p - b.blockSize)
        (by omega)
      exact ⟨wi, d, h1, h2, by omega⟩

theorem digitAt_some (fmt : WordFormat) (cat : List Block) (total p : Nat)
    (hcov : Covered fmt cat total) (hp : p < total) :
    ∃ wi d ds, locate fmt cat 0 p = some (wi, d) ∧
      fetchWord fmt (rawStream fmt cat) wi = some ds ∧
      digitAt fmt cat p = some (refDigit fmt cat p) ∧
      ds[d]? = some (refDigit fmt cat p) := by
  obtain ⟨hdpw, hpay, htot⟩ := hcov
  obtain ⟨wi, d, hloc, hd, hwi⟩ := locate_some fmt hdpw cat 0 p (by omega)
  have hlen := rawStream_length fmt cat hpay
  have hle : (wi + 1) * fmt.wordBytes ≤ (rawStream fmt cat).length := by
    rw [hlen]
    exact Nat.mul_le_mul_right _ (by omega)
  have hf : fetchWord fmt (rawStream fmt cat) wi = some (decodeWord fmt (wordValue fmt
      (((rawStream fmt cat).drop (wi * fmt.wordBytes)).take fmt.wordBytes))) := by
    simp [fetchWord, hle]
  have hlt : d < (decodeWord fmt (wordValue fmt
      (((rawStream fmt cat).drop (wi * fmt.wordBytes)).take fmt.wordBytes))).length := by
    rw [decodeWord_length]; exact hd
  have hdig : digitAt fmt cat p = some ((decodeWord fmt (wordValue fmt
      (((rawStream fmt cat).drop (wi * fmt.wordBytes)).take fmt.wordBytes)))[d]) := by
    simp only [digitAt, hloc, hf]
    exact List.getElem?_eq_getElem hlt
  have hr : refDigit fmt cat p = (decodeWord fmt (wordValue fmt
      (((rawStream fmt cat).drop (wi * fmt.wordBytes)).take fmt.wordBytes)))[d] := by
    simp [refDigit, hdig]
  refine ⟨wi, d, _, hloc, hf, ?_, ?_⟩
  · rw [hr]; exact hdig
  · rw [hr]; exact List.getElem?_eq_getElem hlt

theorem readAtLoop_eq (fmt : WordFormat) (cat : List Block) (total : Nat)
    (hcov : Covered fmt cat total) :
    ∀ n p : Nat, p + n ≤ total →
      readAtLoop fmt cat total n p = ((List.range' p n).map (refDigit fmt cat), none) := by
  intro n
  induction n with
  | zero => intro p _; simp [readAtLoop]
  | succ n ih =>
    intro p hp
    obtain ⟨_, _, _, _, _, hd, _⟩ := digitAt_some fmt cat total p hcov (by omega)
    have hnot : ¬ (total ≤ p) := by omega
    simp [readAtLoop, hnot, hd, ih (p + 1) (by omega), List.range'_succ]

theorem readByte_eq (r : Reader) (hcov : Covered r.fmt r.cat r.totalDigits)
    (hc : r.Consistent) (hp : r.pos < r.totalDigits) :
    ∃ r1, r.readByte = Except.ok (refDigit r.fmt r.cat r.pos, r1) ∧ SameStream r r1 ∧
      r1.pos = r.pos + 1 ∧ r1.Consistent := by
  obtain ⟨wi, d, ds, hloc, hf, _, hg⟩ := digitAt_some r.fmt r.cat r.totalDigits r.pos hcov hp
  have hl : r.loadWord wi = some ds := by
    unfold Reader.loadWord
    unfold Reader.Consistent at hc
    cases hw : r.word with
    | none => simp [hf]
    | some kd =>
      obtain ⟨k, e⟩ := kd
      rw [hw] at hc
      by_cases hk : k = wi
      · subst hk
        simp only [if_true]
        have hc2 : fetchWord r.fmt (rawStream r.fmt r.cat) k = some e := hc
        rw [← hc2, hf]
      · simp [hk, hf]
  have hnot : ¬ (r.totalDigits ≤ r.pos) := by omega
  refine ⟨{ r with pos := r.pos + 1, word := some (wi, ds) }, ?_, ⟨rfl, rfl, rfl⟩, rfl, ?_⟩
  · simp [Reader.readByte, hnot, hloc, hl, hg]
  · simp [Reader.Consistent, hf]

theorem readLoop_eq :
    ∀ (n : Nat) (r : Reader), Covered r.fmt r.cat r.totalDigits →
      r.Consistent → r.pos + n ≤ r.totalDigits →
      ∃ r1, readLoop n r = ((List.range' r.pos n).map (refDigit r.fmt r.cat), none, r1) ∧
        SameStream r r1 ∧ r1.pos = r.pos + n ∧ r1.Consistent := by
  intro n
  induction n with
  | zero => intro r _ hc _; exact ⟨r, by simp [readLoop], ⟨rfl, rfl, rfl⟩, rfl, hc⟩
  | succ n ih =>
    intro r hcov hc hp
    obtain ⟨r1, h1, hs, hpos, hc1⟩ := readByte_eq r hcov hc (by omega)
    obtain ⟨e1, e2, e3⟩ := hs
    obtain ⟨r2, h2, hs2, hpos2, hc2⟩ := ih r1 (by rw [e1, e2, e3]; exact hcov) hc1
      (by rw [e3, hpos]; omega)
    refine ⟨r2, ?_, ?_, by omega, hc2⟩
    · simp [readLoop, h1, h2, List.range'_succ, hpos, e1, e2]
    · obtain ⟨f1, f2, f3⟩ := hs2
      exact ⟨by rw [f1, e1], by rw [f2, e2], by rw [f3, e3]⟩

theorem Read_eq (r : Reader) (n : Nat) (hcov : Covered r.fmt r.cat r.totalDigits)
    (hc : r.Consistent) (hp : r.pos + n ≤ r.totalDigits) :
    ∃ r1, r.Read n = ((List.range' r.pos n).map (refDigit r.fmt r.cat), none, r1) ∧
      SameStream r r1 ∧ r1.pos = r.pos + n ∧ r1.Consistent := by
  by_cases hn : n = 0
  · subst hn
    exact ⟨r, by simp [Reader.Read], ⟨rfl, rfl, rfl⟩, rfl, hc⟩
  · obtain ⟨r1, h1, hrest⟩ := readLoop_eq n r hcov hc hp
    exact ⟨r1, by simp [Reader.Read, hn, h1], hrest⟩

theorem readMany_eq :
    ∀ (ns : List Nat) (r : Reader), Covered r.fmt r.cat r.totalDigits →
      r.Consistent → r.pos + ns.sum ≤ r.totalDigits →
      (readMany ns r).1.flatten = (List.range' r.pos ns.sum).map (refDigit r.fmt r.cat) ∧
        (readMany ns r).2.1 = none ∧ (readMany ns r).1.length = ns.length := by
  intro ns
  induction ns with
  | nil => intro r _ _ _; simp [readMany]
  | cons n ns ih =>
    intro r hcov hc hp
    simp only [List.sum_cons] at hp
    obtain ⟨r1, h1, hs, hpos, hc1⟩ := Read_eq r n hcov hc (by omega)
    obtain ⟨e1, e2, e3⟩ := hs
    obtain ⟨g1, g2, g3⟩ := ih r1 (by rw [e1, e2, e3]; exact hcov) hc1
      (by rw [e3, hpos]; omega)
    simp only [readMany, h1, List.sum_cons]
    refine ⟨?_, g2, by simp [g3]⟩
    simp only [List.flatten_cons, g1, hpos, e1, e2]
    rw [← List.map_append, List.range'_append_1, Nat.add_comm]

theorem Seek_spec (r : Reader) (a : Nat) (hc : r.Consistent) :
    SameStream r (r.Seek a) ∧ (r.Seek a).pos = a ∧ (r.Seek a).Consistent := by
  refine ⟨⟨rfl, rfl, rfl⟩, rfl, ?_⟩
  unfold Reader.Consistent at hc ⊢
  unfold Reader.Seek
  cases hw : r.word with
  | none => simp
  | some kd =>
    obtain ⟨k, d⟩ := kd
    rw [hw] at hc
    cases hl : locate r.fmt r.cat 0 a with
    | none => simp
    | some wd =>
      obtain ⟨wi, e⟩ := wd
      by_cases hk : wi = k
      · simp [hk, hc]
      · simp [hk]

/-- C13: on a reader over a catalog whose blocks hold the words of its
`totalDigits` digits, for all offsets `a <= b <= totalDigits` the digits of
the range `[a, b)` are the same whether they are read by one `Read` of `b - a`
bytes after `Seek(a)`, by a sequence of `Read` calls of any lengths `ns` that
add up to `b - a` after `Seek(a)`, or by `ReadAt` of `b - a` bytes at the
offset `a`; no call returns an error, `ReadAt` leaves the reader as it was,
and `Read` with an empty buffer returns `(0, no error)` and leaves the reader
as it was. -/
theorem reader_paths_agree (r : Reader) (a b : Nat) (ns : List Nat)
    (hdpw : 0 < r.fmt.digitsPerWord)
    (hpay : ∀ blk ∈ r.cat, blockBytes r.fmt blk ≤ blk.payload.length)
    (htot : r.totalDigits ≤ catalogDigits r.cat)
    (hc : r.Consistent) (hab : a ≤ b) (hb : b ≤ r.totalDigits) (hns : ns.sum = b - a) :
    ∃ ds : GoString, ds.length = b - a ∧
      (∀ k, k < b - a → digitAt r.fmt r.cat (a + k) = ds[k]?) ∧
      ((r.Seek a).Read (b - a)).1 = ds ∧ ((r.Seek a).Read (b - a)).2.1 = none ∧
      ((r.Seek a).Read (b - a)).2.2.pos = b ∧
      (readMany ns (r.Seek a)).1.flatten = ds ∧ (readMany ns (r.Seek a)).2.1 = none ∧
      (readMany ns (r.Seek a)).1.length = ns.length ∧
      r.ReadAt (b - a) a = (ds, none, r) ∧
      r.Read 0 = ([], none, r) := by
  have hcov : Covered r.fmt r.cat r.totalDigits := ⟨hdpw, hpay, htot⟩
  obtain ⟨⟨e1, e2, e3⟩, hpos, hcs⟩ := Seek_spec r a hc
  have hcov1 : Covered (r.Seek a).fmt (r.Seek a).cat (r.Seek a).totalDigits := by
    rw [e1, e2, e3]; exact hcov
  obtain ⟨r1, h1, _, hp1, _⟩ := Read_eq (r.Seek a) (b - a) hcov1 hcs
    (by rw [hpos, e3]; omega)
  obtain ⟨g1, g2, g3⟩ := readMany_eq ns (r.Seek a) hcov1 hcs
    (by rw [hpos, e3, hns]; omega)
  refine ⟨(List.range' a (b - a)).map (refDigit r.fmt r.cat), by simp, ?_, ?_, ?_, ?_, ?_, g2,
    g3, ?_, ?_⟩
  · intro k hk
    obtain ⟨_, _, _, _, _, hd, _⟩ := digitAt_some r.fmt r.cat r.totalDigits (a + k) hcov
      (by omega)
    rw [hd, List.getElem?_map, List.getElem?_range' _ _ hk]
    simp
  · rw [h1, hpos, e1, e2]
  · rw [h1]
  · rw [h1, hp1, hpos]; omega
  · rw [g1, hns, hpos, e1, e2]
  · simp [Reader.ReadAt, readAtLoop_eq r.fmt r.cat r.totalDigits hcov (b - a) a (by omega)]
  · simp [Reader.Read]

/-- Witness of C13: the reader `sampleSplitReader` over the four blocks of
`TestUnpack_ReaderWithBoundaries`, which has a word buffered and the cursor at
25, the range `[28, 65)` across two block boundaries, and reads of 1, 7, 0, 22
and 7 bytes. -/
theorem reader_paths_agree_witness :
    (0 < sampleSplitReader.fmt.digitsPerWord ∧
      (∀ blk ∈ sampleSplitReader.cat,
        blockBytes sampleSplitReader.fmt blk ≤ blk.payload.length) ∧
      sampleSplitReader.totalDigits ≤ catalogDigits sampleSplitReader.cat ∧
      sampleSplitReader.Consistent ∧ 28 ≤ 65 ∧ 65 ≤ sampleSplitReader.totalDigits ∧
      [1, 7, 0, 22, 7].sum = 65 - 28) ∧
    ∃ ds : GoString, ds.length = 65 - 28 ∧
      (∀ k, k < 65 - 28 →
        digitAt sampleSplitReader.fmt sampleSplitReader.cat (28 + k) = ds[k]?) ∧
      ((sampleSplitReader.Seek 28).Read (65 - 28)).1 = ds ∧
      ((sampleSplitReader.Seek 28).Read (65 - 28)).2.1 = none ∧
      ((sampleSplitReader.Seek 28).Read (65 - 28)).2.2.pos = 65 ∧
      (readMany [1, 7, 0, 22, 7] (sampleSplitReader.Seek 28)).1.flatten = ds ∧
      (readMany [1, 7, 0, 22, 7] (sampleSplitReader.Seek 28)).2.1 = none ∧
      (readMany [1, 7, 0, 22, 7] (sampleSplitReader.Seek 28)).1.length
        = [1, 7, 0, 22, 7].length ∧
      sampleSplitReader.ReadAt (65 - 28) 28 = (ds, none, sampleSplitReader) ∧
      sampleSplitReader.Read 0 = ([], none, sampleSplitReader) :=
  ⟨by decide!, reader_paths_agree sampleSplitReader 28 65 [1, 7, 0, 22, 7] (by decide!)
    (by decide!) (by decide!) (by decide!) (by decide) (by decide!) (by decide)⟩

/-! ## The reader over a catalog of blocks -/

theorem decodeWords_length (fmt : WordFormat) :
    ∀ (n : Nat) (raw : List Nat), (decodeWords fmt n raw).length = n * fmt.digitsPerWord := by
  intro n
  induction n with
  | zero => intro raw; simp [decodeWords]
  | succ n ih =>
    intro raw
    simp only [decodeWords, List.length_append, decodeWord_length, ih]
    ring

theorem fetchWord_drop (fmt : WordFormat) (raw : List Nat) (wi : Nat)
    (hle : fmt.wordBytes ≤ raw.length) :
    fetchWord fmt (raw.drop fmt.wordBytes) wi = fetchWord fmt raw (wi + 1) := by
  unfold fetchWord
  have e1 : (wi + 1 + 1) * fmt.wordBytes = (wi + 1) * fmt.wordBytes + fmt.wordBytes := by ring
  have e2 : fmt.wordBytes + wi * fmt.wordBytes = (wi + 1) * fmt.wordBytes := by ring
  by_cases h : (wi + 1) * fmt.wordBytes ≤ (raw.drop fmt.wordBytes).length
  · have h2 : (wi + 1 + 1) * fmt.wordBytes ≤ raw.length := by
      rw [List.length_drop] at h; omega
    rw [if_pos h, if_pos h2, List.drop_drop, e2]
  · have h2 : ¬ ((wi + 1 + 1) * fmt.wordBytes ≤ raw.length) := by
      rw [List.length_drop] at h; omega
    rw [if_neg h, if_neg h2]

theorem wordDigitAt_drop (fmt : WordFormat) (raw : List Nat) (p : Nat)
    (hdpw : 0 < fmt.digitsPerWord) (hle : fmt.wordBytes ≤ raw.length)
    (hp : fmt.digitsPerWord ≤ p) :
    wordDigitAt fmt (raw.drop fmt.wordBytes) (p - fmt.digitsPerWord) = wordDigitAt fmt raw p := by
  have hdiv : p / fmt.digitsPerWord = (p - fmt.digitsPerWord) / fmt.digitsPerWord + 1 := by
    have := Nat.add_div_right (p - fmt.digitsPerWord) hdpw
    rw [Nat.sub_add_cancel hp] at this
    exact this
  have hmod : p % fmt.digitsPerWord = (p - fmt.digitsPerWord) % fmt.digitsPerWord := by
    have := Nat.add_mod_right (p - fmt.digitsPerWord) fmt.digitsPerWord
    rw [Nat.sub_add_cancel hp] at this
    exact this
  unfold wordDigitAt
  rw [fetchWord_drop fmt raw _ hle, hdiv, hmod]

theorem decodeWords_getElem? (fmt : WordFormat) (hdpw : 0 < fmt.digitsPerWord) :
    ∀ (n : Nat) (raw : List Nat) (p : Nat), n * fmt.wordBytes ≤ raw.length →
      p < n * fmt.digitsPerWord → (decodeWords fmt n raw)[p]? = wordDigitAt fmt raw p := by
  intro n
  induction n with
  | zero => intro raw p _ hp; simp at hp
  | succ n ih =>
    intro raw p hraw hp
    have hle : fmt.wordBytes ≤ raw.length := by
      rw [Nat.succ_mul] at hraw; omega
    simp only [decodeWords]
    by_cases hlt : p < fmt.digitsPerWord
    · rw [List.getElem?_append_left (by rw [decodeWord_length]; exact hlt)]
      have h0 : (0 + 1) * fmt.wordBytes ≤ raw.length := by simpa using hle
      simp [wordDigitAt, fetchWord, Nat.div_eq_of_lt hlt, Nat.mod_eq_of_lt hlt, hle]
    · have hge : fmt.digitsPerWord ≤ p := by omega
      rw [List.getElem?_append_right (by rw [decodeWord_length]; exact hge), decodeWord_length,
        ih (raw.drop fmt.wordBytes) (p - fmt.digitsPerWord)
          (by rw [List.length_drop]; rw [Nat.succ_mul] at hraw; omega)
          (by rw [Nat.succ_mul] at hp; omega),
        wordDigitAt_drop fmt raw p hdpw hle hge]

theorem decodeAll_of_length (fmt : WordFormat) (hwb : 0 < fmt.wordBytes) (raw : List Nat)
    (n : Nat) (h : raw.length = n * fmt.wordBytes) : decodeAll fmt raw = decodeWords fmt n raw := by
  rw [decodeAll, h, Nat.mul_div_cancel _ hwb]

theorem fetchWord_append_left (fmt : WordFormat) (X Y : List Nat) (j : Nat)
    (h : (j + 1) * fmt.wordBytes ≤ X.length) :
    fetchWord fmt (X ++ Y) j = fetchWord fmt X j := by
  have e : (j + 1) * fmt.wordBytes = j * fmt.wordBytes + fmt.wordBytes := by ring
  have h1 : j * fmt.wordBytes ≤ X.length := by omega
  have h2 : (j + 1) * fmt.wordBytes ≤ (X ++ Y).length := by
    rw [List.length_append]; omega
  have h3 : fmt.wordBytes ≤ (X.drop (j * fmt.wordBytes)).length := by
    rw [List.length_drop]; omega
  unfold fetchWord
  rw [if_pos h, if_pos h2, List.drop_append_of_le_length h1, List.take_append_of_le_length h3]

theorem fetchWord_append_pre (fmt : WordFormat) (pre X : List Nat) (w0 j : Nat)
    (hpre : pre.length = w0 * fmt.wordBytes) :
    fetchWord fmt (pre ++ X) (w0 + j) = fetchWord fmt X j := by
  have e1 : (w0 + j + 1) * fmt.wordBytes = w0 * fmt.wordBytes + (j + 1) * fmt.wordBytes := by
    ring
  have e2 : (w0 + j) * fmt.wordBytes = pre.length + j * fmt.wordBytes := by
    rw [hpre]; ring
  unfold fetchWord
  rw [e2, List.drop_append]
  by_cases h : (j + 1) * fmt.wordBytes ≤ X.length
  · have h2 : (w0 + j + 1) * fmt.wordBytes ≤ (pre ++ X).length := by
      rw [List.length_append, hpre, e1]; omega
    rw [if_pos h, if_pos h2]
  · have h2 : ¬ ((w0 + j + 1) * fmt.wordBytes ≤ (pre ++ X).length) := by
      rw [List.length_append, hpre, e1]; omega
    rw [if_neg h, if_neg h2]

theorem locate_fetch (fmt : WordFormat) (hdpw : 0 < fmt.digitsPerWord)
    (hwb : 0 < fmt.wordBytes) :
    ∀ (cat : List Block) (pre : List Nat) (w0 p : Nat), pre.length = w0 * fmt.wordBytes →
      (∀ b ∈ cat, blockBytes fmt b ≤ b.payload.length) → p < catalogDigits cat →
      (match locate fmt cat w0 p with
        | none => none
        | some (wi, d) =>
          match fetchWord fmt (pre ++ rawStream fmt cat) wi with
          | none => none
          | some ds => ds[d]?)
        = (blockDigits fmt cat)[p]? := by
  intro cat
  induction cat with
  | nil => intro pre w0 p _ _ hp; simp [catalogDigits] at hp
  | cons b rest ih =>
    intro pre w0 p hpre hpay hp
    have hb := hpay b (List.mem_cons_self b rest)
    have hrest : ∀ c ∈ rest, blockBytes fmt c ≤ c.payload.length :=
      fun c hc => hpay c (List.mem_cons_of_mem b hc)
    have hlenb : (b.payload.take (blockBytes fmt b)).length
        = (b.blockSize + fmt.digitsPerWord - 1) / fmt.digitsPerWord * fmt.wordBytes := by
      rw [List.length_take, Nat.min_eq_left hb]; rfl
    have hraw : rawStream fmt (b :: rest)
        = b.payload.take (blockBytes fmt b) ++ rawStream fmt rest := by
      simp [rawStream]
    have hdig : catalogDigits (b :: rest) = b.blockSize + catalogDigits rest := by
      simp [catalogDigits]
    have hbd : blockDigits fmt (b :: rest)
        = (decodeAll fmt (b.payload.take (blockBytes fmt b))).take b.blockSize
          ++ blockDigits fmt rest := by
      simp [blockDigits]
    have hall := decodeAll_of_length fmt hwb _ _ hlenb
    have hceil := le_ceil_mul b.blockSize fmt.digitsPerWord hdpw
    have hXlen : ((decodeAll fmt (b.payload.take (blockBytes fmt b))).take b.blockSize).length
        = b.blockSize := by
      rw [List.length_take, hall, decodeWords_length]; omega
    rw [hraw, hbd]
    unfold locate
    by_cases hlt : p < b.blockSize
    · rw [if_pos hlt]
      have hj : p / fmt.digitsPerWord
          < (b.blockSize + fmt.digitsPerWord - 1) / fmt.digitsPerWord := by
        apply Nat.div_lt_of_lt_mul
        rw [Nat.mul_comm]
        omega
      have hjle : (p / fmt.digitsPerWord + 1) * fmt.wordBytes
          ≤ (b.payload.take (blockBytes fmt b)).length := by
        rw [hlenb]; exact Nat.mul_le_mul_right _ hj
      simp only []
      rw [fetchWord_append_pre fmt pre _ w0 _ hpre, fetchWord_append_left fmt _ _ _ hjle,
        List.getElem?_append_left (by rw [hXlen]; exact hlt), List.getElem?_take_of_lt hlt, hall,
        decodeWords_getElem? fmt hdpw _ _ p (le_of_eq hlenb.symm) (by omega)]
      rfl
    · rw [if_neg hlt]
      have hpre2 : (pre ++ b.payload.take (blockBytes fmt b)).length
          = (w0 + (b.blockSize + fmt.digitsPerWord - 1) / fmt.digitsPerWord) * fmt.wordBytes := by
        rw [List.length_append, hpre, hlenb]; ring
      have := ih (pre ++ b.payload.take (blockBytes fmt b))
        (w0 + (b.blockSize + fmt.digitsPerWord - 1) / fmt.digitsPerWord) (p - b.blockSize)
        hpre2 hrest (by omega)
      rw [List.append_assoc] at this
      rw [this, List.getElem?_append_right (by rw [hXlen]; omega), hXlen]

theorem blockDigits_length (fmt : WordFormat) (hdpw : 0 < fmt.digitsPerWord)
    (hwb : 0 < fmt.wordBytes) :
    ∀ cat : List Block, (∀ b ∈ cat, blockBytes fmt b ≤ b.payload.length) →
      (blockDigits fmt cat).length = catalogDigits cat := by
  intro cat
  induction cat with
  | nil => intro _; simp [blockDigits, catalogDigits]
  | cons b rest ih =>
    intro hpay
    have hb := hpay b (List.mem_cons_self b rest)
    have hr := ih (fun c hc => hpay c (List.mem_cons_of_mem b hc))
    have hlenb : (b.payload.take (blockBytes fmt b)).length
        = (b.blockSize + fmt.digitsPerWord - 1) / fmt.digitsPerWord * fmt.wordBytes := by
      rw [List.length_take, Nat.min_eq_left hb]; rfl
    have hall := decodeAll_of_length fmt hwb _ _ hlenb
    have hceil := le_ceil_mul b.blockSize fmt.digitsPerWord hdpw
    simp only [blockDigits, catalogDigits, List.map_cons, List.flatten_cons, List.length_append,
      List.length_take, List.sum_cons] at hr ⊢
    rw [hr, hall, decodeWords_length]
    omega

/-- The digits that the reader resolves are the digits of the blocks. -/
theorem refDigits_eq_logicalDigits (fmt : WordFormat) (cat : List Block) (total : Nat)
    (hcov : Covered fmt cat total) (hwb : 0 < fmt.wordBytes) :
    (List.range' 0 total).map (refDigit fmt cat) = logicalDigits fmt cat total := by
  obtain ⟨hdpw, hpay, htot⟩ := hcov
  have hlen := blockDigits_length fmt hdpw hwb cat hpay
  apply List.ext_getElem?
  intro k
  by_cases hk : k < total
  · have hloc := locate_fetch fmt hdpw hwb cat [] 0 k (by simp) hpay (by omega)
    simp only [List.nil_append] at hloc
    have hd : digitAt fmt cat k = (blockDigits fmt cat)[k]? := hloc
    have hkl : k < (blockDigits fmt cat).length := by omega
    have hsome : (blockDigits fmt cat)[k]? = some ((blockDigits fmt cat)[k]) :=
      List.getElem?_eq_getElem hkl
    rw [List.getElem?_map, List.getElem?_range' _ _ hk, logicalDigits,
      List.getElem?_take_of_lt hk, hsome]
    simp [refDigit, hd, hsome]
  · have h1 : ((List.range' 0 total).map (refDigit fmt cat)).length ≤ k := by simp; omega
    have h2 : (logicalDigits fmt cat total).length ≤ k := by
      rw [logicalDigits, List.length_take]; omega
    rw [List.getElem?_eq_none h1, List.getElem?_eq_none h2]

/-- C14: for every catalog of blocks whose payloads hold their words (the
blocks may be smaller than a read request, may have a partly used last word,
and the last block may carry padding beyond `totalDigits`) and every unsplit
block `u` that holds the same first `totalDigits` digits, the digits of
`[0, totalDigits)` that a new reader over the catalog returns via
`ReadAt(buf, 0)`, via a full sequential read, and via a full read after
`Seek(0, SeekStart)` all equal the reference decoding of the unsplit block,
which a reader over that block returns as well; no call returns an error and
exactly `totalDigits` bytes are produced. -/
theorem reader_split_transparent (fmt : WordFormat) (cat : List Block) (u : Block)
    (total : Nat) (hdpw : 0 < fmt.digitsPerWord) (hwb : 0 < fmt.wordBytes)
    (hpay : ∀ b ∈ cat, blockBytes fmt b ≤ b.payload.length)
    (htot : total ≤ catalogDigits cat)
    (hu : blockBytes fmt u ≤ u.payload.length) (htu : total ≤ u.blockSize)
    (hsame : logicalDigits fmt cat total = logicalDigits fmt [u] total) :
    logicalDigits fmt cat total
        = (decodeAll fmt (u.payload.take (blockBytes fmt u))).take total ∧
      (logicalDigits fmt cat total).length = total ∧
      (NewReader fmt cat total).ReadAt total 0
        = (logicalDigits fmt cat total, none, NewReader fmt cat total) ∧
      ((NewReader fmt cat total).Read total).1 = logicalDigits fmt cat total ∧
      ((NewReader fmt cat total).Read total).2.1 = none ∧
      ((((NewReader fmt cat total).Read total).2.2.Seek 0).Read total).1
        = logicalDigits fmt cat total ∧
      ((((NewReader fmt cat total).Read total).2.2.Seek 0).Read total).2.1 = none ∧
      (NewReader fmt [u] total).ReadAt total 0
        = (logicalDigits fmt cat total, none, NewReader fmt [u] total) := by
  have hcov : Covered fmt cat total := ⟨hdpw, hpay, htot⟩
  have hcovu : Covered fmt [u] total :=
    ⟨hdpw, fun b hb => by rw [List.mem_singleton.1 hb]; exact hu, by simpa [catalogDigits] using htu⟩
  have hmap := refDigits_eq_logicalDigits fmt cat total hcov hwb
  have hmapu := refDigits_eq_logicalDigits fmt [u] total hcovu hwb
  have hc0 : (NewReader fmt cat total).Consistent := by simp [NewReader, Reader.Consistent]
  obtain ⟨r1, h1, ⟨e1, e2, e3⟩, _, hc1⟩ := Read_eq (NewReader fmt cat total) total hcov hc0
    (by simp [NewReader])
  obtain ⟨⟨f1, f2, f3⟩, hpos, hcs⟩ := Seek_spec r1 0 hc1
  obtain ⟨r2, h2, _, _, _⟩ := Read_eq (r1.Seek 0) total
    (by rw [f1, f2, f3, e1, e2, e3]; exact hcov) hcs (by rw [hpos, f3, e3]; simp [NewReader])
  have hpos0 : (NewReader fmt cat total).pos = 0 := rfl
  have hfmt0 : (NewReader fmt cat total).fmt = fmt := rfl
  have hcat0 : (NewReader fmt cat total).cat = cat := rfl
  rw [hpos0, hfmt0, hcat0, hmap] at h1
  rw [hpos, f1, f2, e1, e2, hfmt0, hcat0, hmap] at h2
  refine ⟨?_, ?_, ?_, ?_, ?_, ?_, ?_, ?_⟩
  · rw [hsame]
    simp [logicalDigits, blockDigits, List.take_take, Nat.min_eq_left htu]
  · rw [← hmap]; simp
  · have := readAtLoop_eq fmt cat total hcov total 0 (by omega)
    simp only [Reader.ReadAt, hfmt0, hcat0]
    rw [show (NewReader fmt cat total).totalDigits = total from rfl, this, hmap]
  · rw [h1]
  · rw [h1]
  · rw [h1]; simp only []; rw [h2]
  · rw [h1]; simp only []; rw [h2]
  · have := readAtLoop_eq fmt [u] total hcovu total 0 (by omega)
    simp only [Reader.ReadAt]
    rw [show (NewReader fmt [u] total).fmt = fmt from rfl,
      show (NewReader fmt [u] total).cat = [u] from rfl,
      show (NewReader fmt [u] total).totalDigits = total from rfl, this, hmapu, hsame]

/-- Witness of C14: the catalog of `TestUnpack_ReaderWithBoundaries` (four
blocks of 30 digits, the second word of a block holding 11 digits, the last
block padded beyond the 100 digits) and the unsplit test block. -/
theorem reader_split_transparent_witness :
    (0 < (testFormat 10).digitsPerWord ∧ 0 < (testFormat 10).wordBytes ∧
      (∀ b ∈ testCatalog, blockBytes (testFormat 10) b ≤ b.payload.length) ∧
      100 ≤ catalogDigits testCatalog ∧
      blockBytes (testFormat 10) testBlock ≤ testBlock.payload.length ∧
      100 ≤ testBlock.blockSize ∧
      logicalDigits (testFormat 10) testCatalog 100
        = logicalDigits (testFormat 10) [testBlock] 100) ∧
    (logicalDigits (testFormat 10) testCatalog 100
        = (decodeAll (testFormat 10)
            (testBlock.payload.take (blockBytes (testFormat 10) testBlock))).take 100 ∧
      (logicalDigits (testFormat 10) testCatalog 100).length = 100 ∧
      (NewReader (testFormat 10) testCatalog 100).ReadAt 100 0
        = (logicalDigits (testFormat 10) testCatalog 100, none,
            NewReader (testFormat 10) testCatalog 100) ∧
      ((NewReader (testFormat 10) testCatalog 100).Read 100).1
        = logicalDigits (testFormat 10) testCatalog 100 ∧
      ((NewReader (testFormat 10) testCatalog 100).Read 100).2.1 = none ∧
      ((((NewReader (testFormat 10) testCatalog 100).Read 100).2.2.Seek 0).Read 100).1
        = logicalDigits (testFormat 10) testCatalog 100 ∧
      ((((NewReader (testFormat 10) testCatalog 100).Read 100).2.2.Seek 0).Read 100).2.1
        = none ∧
      (NewReader (testFormat 10) [testBlock] 100).ReadAt 100 0
        = (logicalDigits (testFormat 10) testCatalog 100, none,
            NewReader (testFormat 10) [testBlock] 100)) :=
  ⟨by decide!, reader_split_transparent (testFormat 10) testCatalog testBlock 100 (by decide)
    (by decide) (by decide!) (by decide!) (by decide!) (by decide!) (by decide!)⟩

/-- The expectations of `TestUnpack_ReaderWithBoundaries` hold of the reader:
`ReadAt(buf, 0)`, the full sequential read and the full read after `Seek(0)`
over the four blocks of 30 digits give `testDecExpected[:100]`. -/
theorem testCatalog_reads :
    (NewReader (testFormat 10) testCatalog 100).ReadAt 100 0
        = (testDecExpected.take 100, none, NewReader (testFormat 10) testCatalog 100) ∧
      ((NewReader (testFormat 10) testCatalog 100).Read 100).1 = testDecExpected.take 100 ∧
      ((NewReader (testFormat 10) testCatalog 100).Read 100).2.1 = none ∧
      ((((NewReader (testFormat 10) testCatalog 100).Read 100).2.2.Seek 0).Read 100).1
        = testDecExpected.take 100 := by
  decide!

end PiPal
